import Mathlib

/-!
# Curle acoustic-analogy function object (libAcoustics, `Curle.C`)

A shallow embedding of `Foam::Curle` and the properties of its force-rate
estimator, dipole propagation formula, execution gating and set-up code.

Conventions of the embedding

* `scalar` is an arbitrary linearly ordered field `K` (exact arithmetic); every
  definition is computable and can be evaluated at `K = ℚ`.
* `label` is `Int`; the C++ remainder `%` is `Int.tmod`.
* `vector` is `Vec K`, with the OpenFOAM operators used by the source.
* Items that the source calls but does not define (the constant `pi`, the
  square root behind `mag`, `SoundObserver::fft`) are fields of `Lib K`.
* The per-call ambient state (time, time step, mesh boundary with its sampled
  fields, `Pstream` flags) is a `World K`.
* `FatalError` exits and accesses outside a list are the error side of `Except`.
* The spectral analysis of an observer, whose source is absent, is modelled
  from the specification as `SoundObserver.spectrum`, its numerical steps being
  the fields of a `SpectralLib K`.
-/

set_option linter.unusedSectionVars false
set_option linter.dupNamespace false

namespace Foam

/-! ## Vectors -/

/-- OpenFOAM `vector`: three scalar components. -/
@[ext]
structure Vec (K : Type) where
  x : K
  y : K
  z : K
deriving DecidableEq, Repr

namespace Vec

variable {K : Type} [LinearOrderedField K]

instance : Zero (Vec K) := ⟨⟨0, 0, 0⟩⟩
instance : Add (Vec K) := ⟨fun a b => ⟨a.x + b.x, a.y + b.y, a.z + b.z⟩⟩
instance : Sub (Vec K) := ⟨fun a b => ⟨a.x - b.x, a.y - b.y, a.z - b.z⟩⟩
instance : Neg (Vec K) := ⟨fun a => ⟨-a.x, -a.y, -a.z⟩⟩
/-- Product `scalar * vector`. -/
instance : HMul K (Vec K) (Vec K) := ⟨fun k a => ⟨k * a.x, k * a.y, k * a.z⟩⟩
/-- Product `vector * scalar`. -/
instance : HMul (Vec K) K (Vec K) := ⟨fun a k => ⟨a.x * k, a.y * k, a.z * k⟩⟩
/-- Quotient `vector / scalar`. -/
instance : HDiv (Vec K) K (Vec K) := ⟨fun a k => ⟨a.x / k, a.y / k, a.z / k⟩⟩

instance : AddCommGroup (Vec K) where
  add_assoc a b c := by ext <;> exact add_assoc _ _ _
  zero_add a := by ext <;> exact zero_add _
  add_zero a := by ext <;> exact add_zero _
  nsmul := nsmulRec
  zsmul := zsmulRec
  neg_add_cancel a := by ext <;> exact neg_add_cancel _
  add_comm a b := by ext <;> exact add_comm _ _
  sub_eq_add_neg a b := by ext <;> exact sub_eq_add_neg _ _

/-- Inner product, the OpenFOAM operator `&`. -/
def dot (a b : Vec K) : K := a.x * b.x + a.y * b.y + a.z * b.z

/-- Squared magnitude, OpenFOAM `magSqr`. -/
def magSqr (a : Vec K) : K := a.x * a.x + a.y * a.y + a.z * a.z

end Vec

/-! ## Ambient state -/

/-- One boundary face: centre `Cf`, outward area vector `Sf`, and the boundary
values on this face of the fields registered as `pName_` and `rhoName_`. -/
structure Face (K : Type) where
  Cf : Vec K
  Sf : Vec K
  p : K
  rho : K

/-- One boundary patch of the mesh; `faces` lists the faces of all partitions,
so that `gSum` over the patch is the sum over this list. -/
structure Patch (K : Type) where
  name : String
  faces : List (Face K)

/-- What one call reads from its surroundings. -/
structure World (K : Type) where
  /-- Current time `obr_.time().value()`. -/
  time : K
  /-- Simulation step `mesh.time().deltaT().value()`. -/
  deltaT : K
  /-- The flag `Pstream::master()`. -/
  master : Bool
  /-- The flag `Pstream::parRun()`. -/
  parRun : Bool
  /-- Whether `p.dimensions() == dimPressure`. -/
  pIsPressure : Bool
  /-- The patches `mesh.boundary()`. -/
  boundary : List (Patch K)

/-- Ways in which a call stops without returning. -/
inductive Fatal where
  /-- A dictionary entry that `lookup` or `subDict` does not find. -/
  | keyNotFound (key : String)
  /-- The error of `calcDistances`: the name and the valid patch names. -/
  | patchNotFound (name : String) (valid : List String)
  /-- An access outside the bounds of a list. -/
  | outOfRange
  /-- A dereference of an empty `autoPtr`. -/
  | nullPointer
  /-- An integer remainder with divisor zero. -/
  | divideByZero
deriving DecidableEq, Repr

/-! ## Observers -/

/-- Modelled from the spec: the class `SoundObserver` (its header and source
are absent). An observer has a name, a fixed position, a reference pressure, a
window length, the pressure of the current step and the append-only sequences
of pressure samples and of sample times. -/
structure SoundObserver (K : Type) where
  name : String
  position : Vec K
  pref : K
  fftFreq : Int
  apressure : K
  p : List K
  time : List K

namespace SoundObserver

variable {K : Type}

/-- Modelled from the spec: the setter `apressure(oap)`, which "appends new
calculated acoustic pressure" and makes it the pressure of the current step. -/
def setApressure (obs : SoundObserver K) (oap : K) : SoundObserver K :=
  { obs with apressure := oap, p := obs.p ++ [oap] }

/-- Modelled from the spec: the setter `atime(t)`, which appends a sample time. -/
def atime (obs : SoundObserver K) (t : K) : SoundObserver K :=
  { obs with time := obs.time ++ [t] }

end SoundObserver

/-- Items that `Curle.C` uses and that are defined outside it. -/
structure Lib (K : Type) where
  /-- The constant `Foam::constant::mathematical::pi`. -/
  pi : K
  /-- The scalar square root used by `mag(vector)`. -/
  sqrt : K → K
  /-- Modelled from the spec: the member `SoundObserver::fft(tau)`, whose result
  is three parallel sequences of equal length, held here as one list of bins
  (frequency, amplitude, level). -/
  fft : SoundObserver K → K → List (K × K × K)

/-- OpenFOAM `mag(vector)`, the Euclidean length. -/
def mag {K : Type} [LinearOrderedField K] (E : Lib K) (v : Vec K) : K := E.sqrt v.magSqr

/-! ## The function object -/

/-- The time-history file behind `CurleFilePtr_`: the header words and one row
per written line (first column, then one value per observer). -/
structure CurleFile (K : Type) where
  header : List String
  rows : List (K × List K)

/-- The data members of `Foam::Curle`. -/
structure Curle (K : Type) where
  name : String
  active : Bool
  probeFreq : Int
  log : Bool
  patchNames : List String
  timeStart : K
  timeEnd : K
  pName : String
  c0 : K
  dRef : K
  observers : List (SoundObserver K)
  rhoName : String
  rhoRef : K
  c : Vec K
  CurleFilePtr : Option (CurleFile K)
  FOldPtr : Option (Vec K)
  FOldOldPtr : Option (Vec K)
  probeI : Int
  /-- The files `fft-<name>-<observer>.dat` written so far, latest first. -/
  fftFiles : List (String × List (K × K × K))

variable {K : Type} [LinearOrderedField K]

/-! ### Patch lookup and `normalStress` -/

/-- The lookup `mesh.boundary().findPatchID(patchName)`: the index of the first
patch of that name, or `-1`. -/
def findPatchID : List (Patch K) → String → Int
  | [], _ => -1
  | P :: rest, patchName =>
    if P.name = patchName then 0
    else
      let i := findPatchID rest patchName
      if i < 0 then -1 else i + 1

/-- The access `mesh.boundary()[patchId]`. -/
def patchAt (boundary : List (Patch K)) (patchId : Int) : Except Fatal (Patch K) :=
  if patchId < 0 then .error .outOfRange
  else
    match boundary[patchId.toNat]? with
    | some P => .ok P
    | none => .error .outOfRange

/-- The function `Curle::normalStress(patchName)`: the boundary values of `p`
on the patch, multiplied by the density unless `p` is a pressure already. -/
def normalStress (s : Curle K) (w : World K) (patchName : String) : Except Fatal (List K) :=
  let patchId := findPatchID w.boundary patchName
  match patchAt w.boundary patchId with
  | .error e => .error e
  | .ok patch =>
    let pPatch := patch.faces.map (fun f => f.p)
    if w.pIsPressure then .ok pPatch
    else if s.rhoRef < 0 then
      let pRho := patch.faces.map (fun f => f.rho)
      .ok (List.zipWith (fun a b => a * b) pPatch pRho)
    else .ok (pPatch.map (fun a => a * s.rhoRef))

/-- The global sum `gSum` of a vector field. -/
def gSum (vs : List (Vec K)) : Vec K := vs.foldl (fun acc v => acc + v) 0

/-- The loop over `patchNames_` at the start of `correct()`, from the running
value `F`: each pass does `F -= gSum(pp * Sf)` for one patch. -/
def forceLoop (s : Curle K) (w : World K) : List String → Vec K → Except Fatal (Vec K)
  | [], F => .ok F
  | patchName :: rest, F =>
    let patchId := findPatchID w.boundary patchName
    match normalStress s w patchName with
    | .error e => .error e
    | .ok pp =>
      match patchAt w.boundary patchId with
      | .error e => .error e
      | .ok patch =>
        let Sf := patch.faces.map (fun f => f.Sf)
        forceLoop s w rest (F - gSum (List.zipWith (fun a S => a * S) pp Sf))

/-- The force `F` that `correct()` has computed when its patch loop ends. -/
def computeForce (s : Curle K) (w : World K) : Except Fatal (Vec K) :=
  forceLoop s w s.patchNames ⟨0, 0, 0⟩

/-! ### Force-rate estimator -/

/-- Result of the history update in `correct()`. -/
structure Estimate (K : Type) where
  dFdT : Vec K
  FOldPtr : Option (Vec K)
  FOldOldPtr : Option (Vec K)

/-- The block "calculate dFdT and store old values" of `correct()`. -/
def estimate (FOldPtr FOldOldPtr : Option (Vec K)) (F : Vec K) (deltaT : K) : Estimate K :=
  match FOldPtr with
  | none => ⟨⟨0, 0, 0⟩, some F, FOldOldPtr⟩
  | some P =>
    match FOldOldPtr with
    | none => ⟨(F - P) / deltaT, some F, some P⟩
    | some Q => ⟨((3 : K) * F - (4 : K) * P + Q) / (2 : K) / deltaT, some F, some P⟩

/-- The three states of the estimator named by the specification. -/
inductive EstimatorState where
  | Empty
  | OneSample
  | Steady
deriving DecidableEq, Repr

/-- The state of the estimator, read off the two pointers in the order in which
`correct()` tests them. -/
def estimatorState (FOldPtr FOldOldPtr : Option (Vec K)) : EstimatorState :=
  match FOldPtr, FOldOldPtr with
  | none, _ => .Empty
  | some _, none => .OneSample
  | some _, some _ => .Steady

/-! ### Propagation -/

/-- The observed acoustic pressure `oap` computed in the observer loop of
`correct()`, operators grouped as C++ groups them: `&` binds weaker than `*`
and `/`. -/
def observedPressure (E : Lib K) (c : Vec K) (c0 dRef : K) (position F dFdT : Vec K) : K :=
  let coeff1 : K := 1 / 4 / E.pi / c0
  let l := position - c
  let r := mag E l
  let oap := Vec.dot l ((dFdT + c0 * F / r) * coeff1 / r / r)
  if dRef > 0 then oap / dRef else oap

/-- The part of `correct()` that runs on the master only, given the force `F`. -/
def correctMaster (E : Lib K) (s : Curle K) (w : World K) (F : Vec K) : Curle K :=
  let est := estimate s.FOldPtr s.FOldOldPtr F w.deltaT
  { s with
    FOldPtr := est.FOldPtr
    FOldOldPtr := est.FOldOldPtr
    observers := s.observers.map (fun obs =>
      (obs.setApressure (observedPressure E s.c s.c0 s.dRef obs.position F est.dFdT)).atime w.time) }

/-- The function `Curle::correct()`. -/
def correct (E : Lib K) (s : Curle K) (w : World K) : Except Fatal (Curle K) :=
  match computeForce s w with
  | .error e => .error e
  | .ok F =>
    if w.master || !w.parRun then .ok (correctMaster E s w F) else .ok s

/-! ### The time-history file -/

/-- The function `Curle::writeFileHeader()`. -/
def writeFileHeader (s : Curle K) : Curle K :=
  match s.CurleFilePtr with
  | some f =>
    let header := f.header ++ ["Time"] ++ s.observers.map (fun obs => obs.name ++ "_pFluct")
    { s with CurleFilePtr := some ⟨header, f.rows⟩ }
  | none => s

/-- The function `Curle::makeFile()`; creating the directory leaves the state
of the object as it is. -/
def makeFile (s : Curle K) (w : World K) : Curle K :=
  if w.master || !w.parRun then
    if s.CurleFilePtr.isNone then writeFileHeader { s with CurleFilePtr := some ⟨[], []⟩ }
    else s
  else s

/-! ### Set-up: `calcDistances` and `read` -/

/-- The function `Curle::calcDistances()`. -/
def calcDistances (s : Curle K) (w : World K) : Except Fatal (Curle K) :=
  if !s.active then .ok s
  else
    match s.patchNames with
    | [] => .error .outOfRange
    | patchName0 :: _ =>
      let patchId := findPatchID w.boundary patchName0
      if patchId < 0 then
        .error (.patchNotFound patchName0 (w.boundary.map (fun P => P.name)))
      else
        match patchAt w.boundary patchId with
        | .error e => .error e
        | .ok patch =>
          let ci := patch.faces.map (fun f => f.Cf)
          let ni : K := (ci.length : K)
          .ok { s with c := gSum ci / ni }

/-- The entries of the sub-dictionary of one observer. -/
structure ObserverDict (K : Type) where
  position : Option (Vec K)
  pRef : Option K
  fftFreq : Option Int

/-- The entries of the dictionary that `read` looks up; `none` is a missing
entry. -/
structure Dict (K : Type) where
  log : Option Bool
  probeFrequency : Option Int
  patchNames : Option (List String)
  timeStart : Option K
  timeEnd : Option K
  c0 : Option K
  dRef : Option K
  pName : Option String
  rhoName : Option String
  rhoRef : Option K
  observers : Option (List (String × ObserverDict K))

/-- The lookup `dict.lookup(key)` of a mandatory entry. -/
def lookup {α : Type} (key : String) : Option α → Except Fatal α
  | some a => .ok a
  | none => .error (.keyNotFound key)

/-- Modelled from the spec: the constructor of `SoundObserver`, which starts
with no samples. -/
def SoundObserver.new (name : String) (position : Vec K) (pref : K) (fftFreq : Int) :
    SoundObserver K :=
  ⟨name, position, pref, fftFreq, 0, [], []⟩

/-- The loop "read observers" of `read`, appending to `observers_`. -/
def readObservers : List (String × ObserverDict K) → List (SoundObserver K) →
    Except Fatal (List (SoundObserver K))
  | [], observers => .ok observers
  | (oname, d) :: rest, observers =>
    match lookup "position" d.position with
    | .error e => .error e
    | .ok opos =>
      match lookup "pRef" d.pRef with
      | .error e => .error e
      | .ok pref =>
        match lookup "fftFreq" d.fftFreq with
        | .error e => .error e
        | .ok fftFreq =>
          readObservers rest (observers ++ [SoundObserver.new oname opos pref fftFreq])

/-- The function `Curle::read(dict)`. -/
def read (s : Curle K) (dict : Dict K) (w : World K) : Except Fatal (Curle K) :=
  if !s.active then .ok s
  else do
    let log := dict.log.getD false
    let probeFreq ← lookup "probeFrequency" dict.probeFrequency
    let patchNames ← lookup "patchNames" dict.patchNames
    let timeStart ← lookup "timeStart" dict.timeStart
    let timeEnd ← lookup "timeEnd" dict.timeEnd
    let c0 ← lookup "c0" dict.c0
    let dRef ← lookup "dRef" dict.dRef
    let pName ← lookup "pName" dict.pName
    let rhoName ← lookup "rhoName" dict.rhoName
    let rhoRef ← lookup "rhoRef" dict.rhoRef
    let obsDict ← lookup "observers" dict.observers
    let observers ← readObservers obsDict s.observers
    calcDistances
      { s with
        log := log, probeFreq := probeFreq, patchNames := patchNames, timeStart := timeStart
        timeEnd := timeEnd, c0 := c0, dRef := dRef, pName := pName, rhoName := rhoName
        rhoRef := rhoRef, observers := observers } w

/-- The member initialisers of the constructor, with `active_` cleared when the
registry is not an `fvMesh`. -/
def initial (name : String) (isFvMesh : Bool) : Curle K :=
  { name := name, active := isFvMesh, probeFreq := 1, log := false, patchNames := []
    timeStart := -1, timeEnd := -1, pName := "", c0 := 300, dRef := -1, observers := []
    rhoName := "", rhoRef := 1, c := ⟨0, 0, 0⟩, CurleFilePtr := none, FOldPtr := none
    FOldOldPtr := none, probeI := 0, fftFiles := [] }

/-- The constructor `Curle::Curle(name, obr, dict, loadFromFiles)`. -/
def construct (name : String) (isFvMesh : Bool) (dict : Dict K) (w : World K) :
    Except Fatal (Curle K) :=
  read (initial name isFvMesh) dict w

/-! ### `writeFft` and `execute` -/

/-- The function `Curle::writeFft()`: one file per observer whose spectrum has
at least one bin. -/
def writeFft (E : Lib K) (s : Curle K) (w : World K) : Curle K :=
  if w.master || !w.parRun then
    let tau : K := (s.probeFreq : K) * w.deltaT
    { s with
      fftFiles := s.observers.foldl (fun files obs =>
        let obsFft := E.fft obs tau
        if obsFft.length > 0 then ("fft-" ++ s.name ++ "-" ++ obs.name ++ ".dat", obsFft) :: files
        else files) s.fftFiles }
  else s

/-- The return statement through which a call of `execute()` leaves. -/
inductive Outcome where
  /-- Left at `if (!active_)`. -/
  | inactive
  /-- Left at the test of the counter against `probeFreq_`. -/
  | skippedCounter
  /-- Left at the test of the time against the window. -/
  | skippedTime
  /-- Ran to the end, through `correct()`. -/
  | propagated
deriving DecidableEq, Repr

/-- The function `Curle::execute()`. The test `mag(probeI_ % probeFreq_) > VSMALL`
is on integers (`%` takes no other operands), where it says that the remainder
is not zero. From zero the counter stays below the probe frequency (see
`run_summary`), so that `probeI_++` does not leave the range of `label`. -/
def execute (E : Lib K) (s : Curle K) (w : World K) : Except Fatal (Curle K × Outcome) :=
  if !s.active then .ok (s, .inactive)
  else
    let s1 := makeFile s w
    let cTime := w.time
    let s2 := { s1 with probeI := s1.probeI + 1 }
    if s2.probeFreq = 0 then .error .divideByZero
    else if (Int.tmod s2.probeI s2.probeFreq).natAbs > 0 then .ok (s2, .skippedCounter)
    else
      let s3 := { s2 with probeI := 0 }
      if cTime < s3.timeStart || cTime > s3.timeEnd then .ok (s3, .skippedTime)
      else
        match correct E s3 w with
        | .error e => .error e
        | .ok s4 =>
          if w.master || !w.parRun then
            match s4.CurleFilePtr with
            | none => .error .nullPointer
            | some f =>
              let row := (cTime - s4.timeStart, s4.observers.map (fun obs => obs.apressure))
              let s5 := { s4 with CurleFilePtr := some ⟨f.header, f.rows ++ [row]⟩ }
              .ok (writeFft E s5 w, .propagated)
          else .ok (s4, .propagated)

/-- Successive calls of `execute()`, one per element of the list. -/
def run (E : Lib K) : Curle K → List (World K) → Except Fatal (Curle K)
  | s, [] => .ok s
  | s, w :: ws =>
    match execute E s w with
    | .error e => .error e
    | .ok (s1, _) => run E s1 ws

/-- Successive calls of `correct()`, one per element of the list. -/
def correctSeq (E : Lib K) : Curle K → List (World K) → Except Fatal (Curle K)
  | s, [] => .ok s
  | s, w :: ws =>
    match correct E s w with
    | .error e => .error e
    | .ok s1 => correctSeq E s1 ws

/-- The state sequence of the specification: `Empty`, `OneSample`, `Steady`,
`Steady`, and so on, by the number of calls made. -/
def stateAfter : Nat → EstimatorState
  | 0 => .Empty
  | 1 => .OneSample
  | _ => .Steady

/-! ## Statements of the specification and invariants of the proofs -/

/-- The pointers after `k` calls: the first is set from the first call on, the
second from the second call on. -/
def HistoryShape {K : Type} (s : Curle K) (k : Nat) : Prop :=
  s.FOldPtr.isSome = decide (1 ≤ k) ∧ s.FOldOldPtr.isSome = decide (2 ≤ k)

/-- The dipole formula in the words of the specification:
`(l . (dFdt + c0 F / r)) / (4 pi c0 r^2)` with `l = p - c` and `r = |l|`,
divided by `dRef` when `dRef` is positive. -/
def dipolePressure (E : Lib K) (c : Vec K) (c0 dRef : K) (position F dFdT : Vec K) : K :=
  let l := position - c
  let r := mag E l
  let value := Vec.dot l (dFdT + c0 * F / r) / (4 * E.pi * c0 * r ^ 2)
  if dRef ≤ 0 then value else value / dRef

/-- An observer after the sample `oap` taken at time `t` has been appended. -/
def SoundObserver.appended {K : Type} (obs : SoundObserver K) (oap t : K) : SoundObserver K :=
  { obs with apressure := oap, p := obs.p ++ [oap], time := obs.time ++ [t] }

/-- The number of accepted steps in the words of the specification: of the calls
numbered `k0 + 1`, `k0 + 2`, ... made at the listed times, those whose number
is a multiple of the probe frequency and whose time lies in the closed window
from `timeStart` to `timeEnd`. -/
def acceptedCount (probeFreq : Int) (timeStart timeEnd : K) : Nat → List K → Nat
  | _, [] => 0
  | k0, t :: ts =>
    (if probeFreq ∣ (k0 : Int) + 1 ∧ timeStart ≤ t ∧ t ≤ timeEnd then 1 else 0) +
      acceptedCount probeFreq timeStart timeEnd (k0 + 1) ts

/-- Observer `b` is observer `a` with `n` more samples at the end of each of
its two sequences, and nothing else changed. -/
def Extends {K : Type} (n : Nat) (a b : SoundObserver K) : Prop :=
  b.name = a.name ∧ b.position = a.position ∧ b.pref = a.pref ∧ b.fftFreq = a.fftFreq ∧
    (∃ ps, b.p = a.p ++ ps ∧ ps.length = n) ∧ (∃ ts, b.time = a.time ++ ts ∧ ts.length = n)

/-- The members that `execute()` reads and never writes. -/
def SameSetup {K : Type} (s t : Curle K) : Prop :=
  t.name = s.name ∧ t.active = s.active ∧ t.probeFreq = s.probeFreq ∧
    t.patchNames = s.patchNames ∧ t.timeStart = s.timeStart ∧ t.timeEnd = s.timeEnd ∧
    t.c0 = s.c0 ∧ t.dRef = s.dRef ∧ t.rhoRef = s.rhoRef ∧ t.c = s.c

/-- The counter of a monitor that has been called `k` times since its counter
was zero: the remainder of `k` by the probe frequency. -/
def CounterAt {K : Type} (s : Curle K) (k : Nat) : Prop :=
  0 ≤ s.probeI ∧ s.probeI < s.probeFreq ∧ ∃ q : Int, (k : Int) = s.probeFreq * q + s.probeI

/-- The per-face value `q_f` of the specification: the boundary value of `p`
when `p` has pressure dimensions, its product with the boundary value of the
density field when it has not and `rhoRef < 0`, and its product with `rhoRef`
otherwise. -/
def faceStress (s : Curle K) (w : World K) (f : Face K) : K :=
  if w.pIsPressure then f.p else if s.rhoRef < 0 then f.p * f.rho else f.p * s.rhoRef

/-- The patch of the mesh that a name resolves to: the first one of that name. -/
def patchNamed (boundary : List (Patch K)) (patchName : String) : Option (Patch K) :=
  boundary.find? (fun P => decide (P.name = patchName))

/-- The force in the words of the specification: minus the sum over the
patches and over their faces of `q_f * S_f`. -/
def patchForce (s : Curle K) (w : World K) (patches : List (Patch K)) : Vec K :=
  -(patches.map (fun P => (P.faces.map (fun f => faceStress s w f * f.Sf)).sum)).sum

/-- The reference point in the words of the specification: the unweighted mean
of the face centres of all faces of all listed patches. -/
def meanFaceCentre (patches : List (Patch K)) : Vec K :=
  let centres := (patches.map (fun P => P.faces.map (fun f => f.Cf))).flatten
  centres.sum / (centres.length : K)

/-- The quadratic force series of the specification, `F(t) = A + B t + C t^2`. -/
def quadraticForce (A B C : Vec K) (t : K) : Vec K := A + t * B + (t * t) * C

/-- One call of a member function from outside: `read(dict)` or `execute()`,
with what the call finds around it. -/
inductive Call (K : Type) where
  | read (dict : Dict K) (w : World K)
  | execute (w : World K)

/-- The object after one call from outside. -/
def call (E : Lib K) (s : Curle K) : Call K → Except Fatal (Curle K)
  | .read dict w => read s dict w
  | .execute w =>
    match execute E s w with
    | .error e => .error e
    | .ok (s1, _) => .ok s1

/-- The object after a sequence of calls from outside. -/
def calls (E : Lib K) : Curle K → List (Call K) → Except Fatal (Curle K)
  | s, [] => .ok s
  | s, c :: cs =>
    match call E s c with
    | .error e => .error e
    | .ok s1 => calls E s1 cs

/-- The calls `obs.fft(tau)` that `writeFft()` makes, in order, as pairs of the
observer and the argument: one call per observer on the master, none
elsewhere; the loop of `writeFft()` has no test before the call. -/
def fftCalls (s : Curle K) (w : World K) : List (SoundObserver K × K) :=
  if w.master || !w.parRun then
    s.observers.map (fun obs => (obs, (s.probeFreq : K) * w.deltaT))
  else []

/-- What `writeFft()` does with the result of one call: the file of the
observer is written when the spectrum has at least one bin. -/
def fftStore (E : Lib K) (name : String) (files : List (String × List (K × K × K)))
    (c : SoundObserver K × K) : List (String × List (K × K × K)) :=
  if (E.fft c.1 c.2).length > 0 then
    ("fft-" ++ name ++ "-" ++ c.1.name ++ ".dat", E.fft c.1 c.2) :: files
  else files

/-- Modelled from the spec: the numerical steps of `SoundObserver::fft` that the
specification names without fixing them (the class `SoundObserver` and the
transform it uses are absent): the decimal logarithm, the fluctuating-pressure
amplitude per bin computed from the transform magnitudes of the full windows,
and the frequency of bin `k` for windows of `n` samples taken `tau` apart. -/
structure SpectralLib (K : Type) where
  log10 : K → K
  amplitudes : List (List K) → List K
  frequency : Nat → Nat → K → K

/-- Modelled from the spec: the partition of the accumulated pressure series
into consecutive non-overlapping windows of `n` samples, the trailing partial
window discarded (part of the absent `SoundObserver::fft`). -/
def windows {K : Type} (n : Nat) (p : List K) : List (List K) :=
  (List.range (p.length / n)).map (fun i => (p.drop (i * n)).take n)

/-- Modelled from the spec: the member `SoundObserver::fft(tau)`, absent from
the sources. It returns three sequences, frequency bins, fluctuating-pressure
amplitudes and sound-pressure levels; the amplitudes come from the full
windows of `fftFreq` samples, the level of a bin is
`20 log10(amplitude / referencePressure)`, and without samples the sequences
are empty. -/
def SoundObserver.spectrum (S : SpectralLib K) (obs : SoundObserver K) (tau : K) :
    List (List K) :=
  let n := obs.fftFreq.toNat
  let amplitude := if obs.p.length = 0 then [] else S.amplitudes (windows n obs.p)
  let frequency := (List.range amplitude.length).map (fun k => S.frequency k n tau)
  let level := amplitude.map (fun a => 20 * S.log10 (a / obs.pref))
  [frequency, amplitude, level]

/-- The three parallel sequences of a spectrum as one list of bins, the form in
which `writeFft()` writes them line by line. -/
def bins {K : Type} : List (List K) → List (K × K × K)
  | [frequency, amplitude, level] => List.zip frequency (List.zip amplitude level)
  | _ => []

/-- The library whose spectral analysis is the one modelled from the
specification. -/
def spectralLib (pi : K) (sqrt : K → K) (S : SpectralLib K) : Lib K :=
  ⟨pi, sqrt, fun obs tau => bins (obs.spectrum S tau)⟩

/-- The natural square root of a perfect square, by search. -/
def natSqrt (n : Nat) : Nat := ((List.range (n + 1)).find? (fun k => k * k = n)).getD 0

/-- A square root on the rationals, exact on quotients of perfect squares. -/
def ratSqrt (q : ℚ) : ℚ := (natSqrt q.num.natAbs : ℚ) / (natSqrt q.den : ℚ)

/-- A library over the rationals: `22/7` in the place of `pi`, no spectrum. -/
def sampleLib : Lib ℚ := ⟨22 / 7, ratSqrt, fun _ _ => []⟩

/-- A mesh with the single patch `wall` of one face, on a serial run. -/
def sampleWorld : World ℚ :=
  { time := 1, deltaT := 1 / 2, master := true, parRun := false, pIsPressure := true
    boundary := [⟨"wall", [⟨⟨0, 0, 0⟩, ⟨1, 0, 0⟩, 2, 1⟩]⟩] }

/-- A configured monitor of the patch `wall` with one observer and no history. -/
def sampleCurle : Curle ℚ :=
  { name := "curle", active := true, probeFreq := 1, log := false, patchNames := ["wall"]
    timeStart := 0, timeEnd := 10, pName := "p", c0 := 340, dRef := -1
    observers := [SoundObserver.new "obs" ⟨3, 4, 0⟩ 1 4]
    rhoName := "rho", rhoRef := 1, c := ⟨0, 0, 0⟩, CurleFilePtr := none
    FOldPtr := none, FOldOldPtr := none, probeI := 0, fftFiles := [] }

/-- The sample monitor with probe frequency 4. -/
def sampleCurle4 : Curle ℚ := { sampleCurle with probeFreq := 4 }

/-- The sample mesh at a time after the window of the sample monitor. -/
def sampleWorldLate : World ℚ := { sampleWorld with time := 11 }

/-- A mesh with two patches of one face each, centred at `(0,0,0)` and at
`(2,0,0)`. -/
def twoPatchWorld : World ℚ :=
  { time := 0, deltaT := 1, master := true, parRun := false, pIsPressure := true
    boundary := [⟨"front", [⟨⟨0, 0, 0⟩, ⟨1, 0, 0⟩, 1, 1⟩]⟩, ⟨"back", [⟨⟨2, 0, 0⟩, ⟨1, 0, 0⟩, 1, 1⟩]⟩] }

/-- A dictionary that lists the patches under the given names and no observer. -/
def sampleDict (patchNames : List String) : Dict ℚ :=
  { log := some false, probeFrequency := some 1, patchNames := some patchNames
    timeStart := some 0, timeEnd := some 10, c0 := some 340, dRef := some (-1)
    pName := some "p", rhoName := some "rho", rhoRef := some 1, observers := some [] }

/-- The monitor named `curle` as configured from `sampleDict`, with the given
patch names and source reference point. -/
def sampleConfigured (patchNames : List String) (c : Vec ℚ) : Curle ℚ :=
  { name := "curle", active := true, probeFreq := 1, log := false, patchNames := patchNames
    timeStart := 0, timeEnd := 10, pName := "p", c0 := 340, dRef := -1, observers := []
    rhoName := "rho", rhoRef := 1, c := c, CurleFilePtr := none, FOldPtr := none
    FOldOldPtr := none, probeI := 0, fftFiles := [] }

/-- The sample mesh at time `t` with step 1, its face loaded so that the force
on the patch `wall` is `(t, 0, 0)`: a force linear in time with slope
`(1, 0, 0)`. -/
def sampleWorldAt (t : ℚ) : World ℚ :=
  { time := t, deltaT := 1, master := true, parRun := false, pIsPressure := true
    boundary := [⟨"wall", [⟨⟨0, 0, 0⟩, ⟨1, 0, 0⟩, -t, 1⟩]⟩] }

/-- The dictionary of the sample monitor with one observer, named `centre`, at
the origin. -/
def centreDict : Dict ℚ :=
  { log := some false, probeFrequency := some 1, patchNames := some ["wall"]
    timeStart := some 0, timeEnd := some 10, c0 := some 340, dRef := some (-1)
    pName := some "p", rhoName := some "rho", rhoRef := some 1
    observers := some [("centre", ⟨some ⟨0, 0, 0⟩, some 1, some 4⟩)] }

/-- The sample monitor with probe frequency 2. -/
def sampleCurle2 : Curle ℚ := { sampleCurle with probeFreq := 2 }

/-- A library over the rationals whose spectrum always has one bin. -/
def oneBinLib : Lib ℚ := ⟨22 / 7, ratSqrt, fun _ _ => [(0, 0, 0)]⟩

/-! ## Helper lemmas -/

@[simp] theorem Vec.zero_x : (0 : Vec K).x = 0 := rfl
@[simp] theorem Vec.zero_y : (0 : Vec K).y = 0 := rfl
@[simp] theorem Vec.zero_z : (0 : Vec K).z = 0 := rfl
@[simp] theorem Vec.add_x (a b : Vec K) : (a + b).x = a.x + b.x := rfl
@[simp] theorem Vec.add_y (a b : Vec K) : (a + b).y = a.y + b.y := rfl
@[simp] theorem Vec.add_z (a b : Vec K) : (a + b).z = a.z + b.z := rfl
@[simp] theorem Vec.sub_x (a b : Vec K) : (a - b).x = a.x - b.x := rfl
@[simp] theorem Vec.sub_y (a b : Vec K) : (a - b).y = a.y - b.y := rfl
@[simp] theorem Vec.sub_z (a b : Vec K) : (a - b).z = a.z - b.z := rfl
@[simp] theorem Vec.neg_x (a : Vec K) : (-a).x = -a.x := rfl
@[simp] theorem Vec.neg_y (a : Vec K) : (-a).y = -a.y := rfl
@[simp] theorem Vec.neg_z (a : Vec K) : (-a).z = -a.z := rfl
@[simp] theorem Vec.smul_x (k : K) (a : Vec K) : (k * a).x = k * a.x := rfl
@[simp] theorem Vec.smul_y (k : K) (a : Vec K) : (k * a).y = k * a.y := rfl
@[simp] theorem Vec.smul_z (k : K) (a : Vec K) : (k * a).z = k * a.z := rfl
@[simp] theorem Vec.muls_x (a : Vec K) (k : K) : (a * k).x = a.x * k := rfl
@[simp] theorem Vec.muls_y (a : Vec K) (k : K) : (a * k).y = a.y * k := rfl
@[simp] theorem Vec.muls_z (a : Vec K) (k : K) : (a * k).z = a.z * k := rfl
@[simp] theorem Vec.div_x (a : Vec K) (k : K) : (a / k).x = a.x / k := rfl
@[simp] theorem Vec.div_y (a : Vec K) (k : K) : (a / k).y = a.y / k := rfl
@[simp] theorem Vec.div_z (a : Vec K) (k : K) : (a / k).z = a.z / k := rfl

theorem Vec.sub_def (a b : Vec K) : a - b = ⟨a.x - b.x, a.y - b.y, a.z - b.z⟩ := rfl

theorem Vec.add_def (a b : Vec K) : a + b = ⟨a.x + b.x, a.y + b.y, a.z + b.z⟩ := rfl

theorem Vec.smul_def (k : K) (a : Vec K) : k * a = ⟨k * a.x, k * a.y, k * a.z⟩ := rfl

theorem Vec.muls_def (a : Vec K) (k : K) : a * k = ⟨a.x * k, a.y * k, a.z * k⟩ := rfl

theorem Vec.div_def (a : Vec K) (k : K) : a / k = ⟨a.x / k, a.y / k, a.z / k⟩ := rfl

theorem Vec.zero_def : (0 : Vec K) = ⟨0, 0, 0⟩ := rfl

theorem natSqrt_one : natSqrt 1 = 1 := by decide

theorem natSqrt_twentyfive : natSqrt 25 = 5 := by decide

/-- The force on the sample mesh. -/
theorem computeForce_sample (s : Curle ℚ) (h : s.patchNames = ["wall"]) :
    computeForce s sampleWorld = .ok ⟨-2, 0, 0⟩ := by
  simp [computeForce, forceLoop, h, sampleWorld, normalStress, findPatchID, patchAt, gSum,
    Vec.sub_def, Vec.add_def, Vec.smul_def, Vec.zero_def]

/-- On the master, `correct()` is its master part applied to the computed force. -/
theorem correct_of_force (E : Lib K) (s : Curle K) (w : World K) (F : Vec K)
    (hF : computeForce s w = .ok F) (hm : (w.master || !w.parRun) = true) :
    correct E s w = .ok (correctMaster E s w F) := by
  simp only [correct, hF, hm, if_true]

/-- The force depends on the object through `patchNames_` and `rhoRef_` only. -/
theorem forceLoop_congr (s t : Curle K) (w : World K) (h : s.rhoRef = t.rhoRef)
    (names : List String) (F : Vec K) : forceLoop s w names F = forceLoop t w names F := by
  induction names generalizing F with
  | nil => rfl
  | cons n rest ih =>
    have hn : normalStress s w n = normalStress t w n := by
      simp only [normalStress, h]
    simp only [forceLoop, hn]
    cases normalStress t w n with
    | error e => rfl
    | ok pp =>
      cases patchAt w.boundary (findPatchID w.boundary n) with
      | error e => rfl
      | ok patch => exact ih _

theorem computeForce_congr (s t : Curle K) (w : World K) (hn : s.patchNames = t.patchNames)
    (h : s.rhoRef = t.rhoRef) : computeForce s w = computeForce t w := by
  simp only [computeForce, hn]
  exact forceLoop_congr s t w h _ _

/-! ## Force-rate estimator -/

/-- C1: in `correct()` on the master, when both stored forces are present
(`FOldPtr_ = P`, `FOldOldPtr_ = Q`), for every force `F` computed from the
patches and every time step `dt ≠ 0`, the force rate is `(3F - 4P + Q) / (2 dt)`
componentwise, it is the rate that enters the pressure appended to every
observer, the history becomes (`F`, `P`) and the estimator stays in `Steady`. -/
theorem correct_steady_rate (E : Lib K) (s : Curle K) (w : World K) (P Q F : Vec K)
    (hP : s.FOldPtr = some P) (hQ : s.FOldOldPtr = some Q) (_hdt : w.deltaT ≠ 0)
    (hF : computeForce s w = .ok F) (hm : (w.master || !w.parRun) = true) :
    ∃ s1 : Curle K, correct E s w = .ok s1 ∧
      (estimate s.FOldPtr s.FOldOldPtr F w.deltaT).dFdT =
        ⟨(3 * F.x - 4 * P.x + Q.x) / (2 * w.deltaT), (3 * F.y - 4 * P.y + Q.y) / (2 * w.deltaT),
          (3 * F.z - 4 * P.z + Q.z) / (2 * w.deltaT)⟩ ∧
      s1.observers = s.observers.map (fun obs =>
        (obs.setApressure (observedPressure E s.c s.c0 s.dRef obs.position F
          ⟨(3 * F.x - 4 * P.x + Q.x) / (2 * w.deltaT), (3 * F.y - 4 * P.y + Q.y) / (2 * w.deltaT),
            (3 * F.z - 4 * P.z + Q.z) / (2 * w.deltaT)⟩)).atime w.time) ∧
      s1.FOldPtr = some F ∧ s1.FOldOldPtr = some P ∧
      estimatorState s.FOldPtr s.FOldOldPtr = .Steady ∧
      estimatorState s1.FOldPtr s1.FOldOldPtr = .Steady := by
  have hrate : (estimate s.FOldPtr s.FOldOldPtr F w.deltaT).dFdT =
      ⟨(3 * F.x - 4 * P.x + Q.x) / (2 * w.deltaT), (3 * F.y - 4 * P.y + Q.y) / (2 * w.deltaT),
        (3 * F.z - 4 * P.z + Q.z) / (2 * w.deltaT)⟩ := by
    simp only [estimate, hP, hQ]
    ext <;> simp [div_div]
  refine ⟨correctMaster E s w F, correct_of_force E s w F hF hm, hrate, ?_, ?_, ?_, ?_, ?_⟩
  · simp only [correctMaster, hrate]
  · simp [correctMaster, estimate, hP, hQ]
  · simp [correctMaster, estimate, hP, hQ]
  · simp [estimatorState, hP, hQ]
  · simp [correctMaster, estimate, estimatorState, hP, hQ]

/-- Witness of C1 on the sample mesh, with history `P = (1,0,0)`, `Q = (2,0,0)`. -/
theorem correct_steady_rate_witness :
    ∃ s1 : Curle ℚ,
      correct sampleLib { sampleCurle with FOldPtr := some ⟨1, 0, 0⟩, FOldOldPtr := some ⟨2, 0, 0⟩ }
        sampleWorld = .ok s1 ∧
      s1.FOldPtr = some ⟨-2, 0, 0⟩ ∧ s1.FOldOldPtr = some ⟨1, 0, 0⟩ := by
  obtain ⟨s1, h1, _, _, h4, h5, _⟩ :=
    correct_steady_rate sampleLib
      { sampleCurle with FOldPtr := some ⟨1, 0, 0⟩, FOldOldPtr := some ⟨2, 0, 0⟩ } sampleWorld
      ⟨1, 0, 0⟩ ⟨2, 0, 0⟩ ⟨-2, 0, 0⟩ rfl rfl (by simp [sampleWorld])
      (computeForce_sample _ rfl) rfl
  exact ⟨s1, h1, h4, h5⟩

/-- C2: in `correct()` on the master, when exactly one prior force is stored
(`FOldPtr_ = P`, `FOldOldPtr_` empty), for every force `F` computed from the
patches and every `dt ≠ 0`, the force rate is `(F - P) / dt`, it is the rate
that enters the pressure appended to every observer, and afterwards the state
is `Steady` with `FOldOldPtr_ = P` and `FOldPtr_ = F`. -/
theorem correct_oneSample_rate (E : Lib K) (s : Curle K) (w : World K) (P F : Vec K)
    (hP : s.FOldPtr = some P) (hQ : s.FOldOldPtr = none) (_hdt : w.deltaT ≠ 0)
    (hF : computeForce s w = .ok F) (hm : (w.master || !w.parRun) = true) :
    ∃ s1 : Curle K, correct E s w = .ok s1 ∧
      (estimate s.FOldPtr s.FOldOldPtr F w.deltaT).dFdT =
        ⟨(F.x - P.x) / w.deltaT, (F.y - P.y) / w.deltaT, (F.z - P.z) / w.deltaT⟩ ∧
      s1.observers = s.observers.map (fun obs =>
        (obs.setApressure (observedPressure E s.c s.c0 s.dRef obs.position F
          ⟨(F.x - P.x) / w.deltaT, (F.y - P.y) / w.deltaT, (F.z - P.z) / w.deltaT⟩)).atime
            w.time) ∧
      estimatorState s.FOldPtr s.FOldOldPtr = .OneSample ∧
      s1.FOldPtr = some F ∧ s1.FOldOldPtr = some P ∧
      estimatorState s1.FOldPtr s1.FOldOldPtr = .Steady := by
  have hrate : (estimate s.FOldPtr s.FOldOldPtr F w.deltaT).dFdT =
      ⟨(F.x - P.x) / w.deltaT, (F.y - P.y) / w.deltaT, (F.z - P.z) / w.deltaT⟩ := by
    simp only [estimate, hP, hQ]
    ext <;> simp
  refine ⟨correctMaster E s w F, correct_of_force E s w F hF hm, hrate, ?_, ?_, ?_, ?_, ?_⟩
  · simp only [correctMaster, hrate]
  · simp [estimatorState, hP, hQ]
  · simp [correctMaster, estimate, hP, hQ]
  · simp [correctMaster, estimate, hP, hQ]
  · simp [correctMaster, estimate, estimatorState, hP, hQ]

/-- Witness of C2 on the sample mesh, with the single stored force `(1,0,0)`. -/
theorem correct_oneSample_rate_witness :
    ∃ s1 : Curle ℚ,
      correct sampleLib { sampleCurle with FOldPtr := some ⟨1, 0, 0⟩ } sampleWorld = .ok s1 ∧
      s1.FOldPtr = some ⟨-2, 0, 0⟩ ∧ s1.FOldOldPtr = some ⟨1, 0, 0⟩ := by
  obtain ⟨s1, h1, _, _, _, h4, h5, _⟩ :=
    correct_oneSample_rate sampleLib { sampleCurle with FOldPtr := some ⟨1, 0, 0⟩ } sampleWorld
      ⟨1, 0, 0⟩ ⟨-2, 0, 0⟩ rfl rfl (by simp [sampleWorld]) (computeForce_sample _ rfl) rfl
  exact ⟨s1, h1, h4, h5⟩

theorem historyShape_state {s : Curle K} {k : Nat} (h : HistoryShape s k) :
    estimatorState s.FOldPtr s.FOldOldPtr = stateAfter k := by
  obtain ⟨h1, h2⟩ := h
  match k, h1, h2 with
  | 0, h1, h2 =>
    cases hP : s.FOldPtr <;> simp_all [estimatorState, stateAfter]
  | 1, h1, h2 =>
    cases hP : s.FOldPtr <;> cases hQ : s.FOldOldPtr <;> simp_all [estimatorState, stateAfter]
  | k + 2, h1, h2 =>
    cases hP : s.FOldPtr <;> cases hQ : s.FOldOldPtr <;> simp_all [estimatorState, stateAfter]

theorem historyShape_step (E : Lib K) {s : Curle K} {k : Nat} (h : HistoryShape s k)
    (w : World K) (F : Vec K) : HistoryShape (correctMaster E s w F) (k + 1) := by
  obtain ⟨h1, h2⟩ := h
  cases hP : s.FOldPtr with
  | none =>
    have hk : k = 0 := by
      rw [hP] at h1
      simp at h1
      omega
    subst hk
    cases hQ : s.FOldOldPtr with
    | none => simp [HistoryShape, correctMaster, estimate, hP, hQ]
    | some Q => simp [hQ] at h2
  | some P =>
    have hk : 1 ≤ k := by
      rw [hP] at h1
      simpa using h1.symm
    cases hQ : s.FOldOldPtr with
    | none => simp [HistoryShape, correctMaster, estimate, hP, hQ, hk]
    | some Q => simp [HistoryShape, correctMaster, estimate, hP, hQ, hk]

theorem correctMaster_patchNames (E : Lib K) (s : Curle K) (w : World K) (F : Vec K) :
    (correctMaster E s w F).patchNames = s.patchNames := rfl

theorem correctMaster_rhoRef (E : Lib K) (s : Curle K) (w : World K) (F : Vec K) :
    (correctMaster E s w F).rhoRef = s.rhoRef := rfl

/-- A sequence of calls of `correct()` on the master, each with resolvable
patches, returns and moves the history along one step per call. -/
theorem correctSeq_shape (E : Lib K) (ws : List (World K)) :
    ∀ (s : Curle K) (k : Nat), HistoryShape s k →
      (∀ w ∈ ws, (∃ F, computeForce s w = .ok F) ∧ (w.master || !w.parRun) = true) →
      ∃ sn : Curle K, correctSeq E s ws = .ok sn ∧ HistoryShape sn (k + ws.length) := by
  induction ws with
  | nil => intro s k h _; exact ⟨s, rfl, by simpa using h⟩
  | cons w rest ih =>
    intro s k h hw
    obtain ⟨⟨F, hF⟩, hm⟩ := hw w (List.mem_cons_self _ _)
    have hc := correct_of_force E s w F hF hm
    have hrest : ∀ v ∈ rest, (∃ G, computeForce (correctMaster E s w F) v = .ok G) ∧
        (v.master || !v.parRun) = true := by
      intro v hv
      obtain ⟨⟨G, hG⟩, hvm⟩ := hw v (List.mem_cons_of_mem _ hv)
      refine ⟨⟨G, ?_⟩, hvm⟩
      rw [computeForce_congr (correctMaster E s w F) s v rfl rfl]
      exact hG
    obtain ⟨sn, hsn, hshape⟩ := ih (correctMaster E s w F) (k + 1) (historyShape_step E h w F) hrest
    refine ⟨sn, ?_, ?_⟩
    · simp only [correctSeq, hc]
      exact hsn
    · have : k + (w :: rest).length = k + 1 + rest.length := by
        simp only [List.length_cons]
        omega
      rw [this]
      exact hshape

/-- C3: from a fresh estimator (both pointers empty), for every sequence of
calls of `correct()` on the master with resolvable patches, the calls return
and the state after `n` calls is `stateAfter n`, i.e. `Empty`, `OneSample`,
`Steady`, `Steady`, ...; the first call stores its force in `FOldPtr_`, leaves
`FOldOldPtr_` empty and propagates with the zero vector as force rate. -/
theorem correct_bootstrap (E : Lib K) (s : Curle K) (ws : List (World K))
    (h1 : s.FOldPtr = none) (h2 : s.FOldOldPtr = none)
    (hw : ∀ w ∈ ws, (∃ F, computeForce s w = .ok F) ∧ (w.master || !w.parRun) = true) :
    (∀ n, n ≤ ws.length → ∃ sn : Curle K, correctSeq E s (ws.take n) = .ok sn ∧
        estimatorState sn.FOldPtr sn.FOldOldPtr = stateAfter n) ∧
    (∀ w rest F, ws = w :: rest → computeForce s w = .ok F →
      ∃ s1 : Curle K, correct E s w = .ok s1 ∧ s1.FOldPtr = some F ∧ s1.FOldOldPtr = none ∧
        (estimate s.FOldPtr s.FOldOldPtr F w.deltaT).dFdT = ⟨0, 0, 0⟩ ∧
        s1.observers = s.observers.map (fun obs =>
          (obs.setApressure (observedPressure E s.c s.c0 s.dRef obs.position F ⟨0, 0, 0⟩)).atime
            w.time)) := by
  constructor
  · intro n hn
    have h0 : HistoryShape s 0 := by simp [HistoryShape, h1, h2]
    obtain ⟨sn, hsn, hshape⟩ := correctSeq_shape E (ws.take n) s 0 h0
      (fun w hwm => hw w (List.mem_of_mem_take hwm))
    refine ⟨sn, hsn, ?_⟩
    have hlen : (ws.take n).length = n := by simp [List.length_take, hn]
    rw [hlen, Nat.zero_add] at hshape
    exact historyShape_state hshape
  · intro w rest F hws hF
    have hm := (hw w (by rw [hws]; exact List.mem_cons_self _ _)).2
    refine ⟨correctMaster E s w F, correct_of_force E s w F hF hm, ?_, ?_, ?_, ?_⟩
    · simp [correctMaster, estimate, h1]
    · simp [correctMaster, estimate, h1, h2]
    · simp [estimate, h1]
    · simp [correctMaster, estimate, h1]

/-- Witness of C3: three calls on the sample mesh from the fresh sample monitor. -/
theorem correct_bootstrap_witness :
    ∃ sn : Curle ℚ,
      correctSeq sampleLib sampleCurle [sampleWorld, sampleWorld, sampleWorld] = .ok sn ∧
      estimatorState sn.FOldPtr sn.FOldOldPtr = .Steady :=
  (correct_bootstrap sampleLib sampleCurle [sampleWorld, sampleWorld, sampleWorld] rfl rfl
    (by
      intro w hw
      simp only [List.mem_cons, List.mem_singleton, List.not_mem_nil, or_false, or_self] at hw
      subst hw
      exact ⟨⟨_, computeForce_sample _ rfl⟩, rfl⟩)).1 3 (by simp)

/-! ## Propagation -/

/-- The C++ expression for the observed pressure, with `&` binding weaker than
the scaling, has the value of the dipole formula. -/
theorem observedPressure_eq (E : Lib K) (c : Vec K) (c0 dRef : K) (position F dFdT : Vec K) :
    observedPressure E c c0 dRef position F dFdT =
      dipolePressure E c c0 dRef position F dFdT := by
  have hv : Vec.dot (position - c)
        ((dFdT + c0 * F / mag E (position - c)) * (1 / 4 / E.pi / c0) / mag E (position - c) /
          mag E (position - c)) =
      Vec.dot (position - c) (dFdT + c0 * F / mag E (position - c)) /
        (4 * E.pi * c0 * mag E (position - c) ^ 2) := by
    simp only [Vec.dot, Vec.div_x, Vec.div_y, Vec.div_z, Vec.muls_x, Vec.muls_y, Vec.muls_z]
    ring
  simp only [observedPressure, dipolePressure, hv]
  by_cases hd : dRef > 0
  · simp [hd, not_le.mpr hd]
  · simp [hd, not_lt.mp hd]

/-- C4: for every observer position `p`, source reference `c` with
`r = |p - c| > 0`, sound speed `c0 > 0`, force `F` and force rate `dFdt`, the
pressure computed in `correct()` equals `((p - c) . (dFdt + c0 F / r)) /
(4 pi c0 r^2)` when `dRef <= 0` and that value divided by `dRef` when
`dRef > 0`; and a call of `correct()` on the master appends exactly this value,
taken at the computed force and the estimated force rate, to every observer. -/
theorem correct_appends_dipolePressure (E : Lib K) (s : Curle K) (w : World K) (F : Vec K)
    (hc0 : 0 < s.c0) (hr : ∀ obs ∈ s.observers, 0 < mag E (obs.position - s.c))
    (hF : computeForce s w = .ok F) (hm : (w.master || !w.parRun) = true) :
    (∀ (position G dFdT : Vec K) (dRef : K), 0 < mag E (position - s.c) →
      observedPressure E s.c s.c0 dRef position G dFdT =
        if dRef ≤ 0 then
          Vec.dot (position - s.c) (dFdT + s.c0 * G / mag E (position - s.c)) /
            (4 * E.pi * s.c0 * mag E (position - s.c) ^ 2)
        else
          Vec.dot (position - s.c) (dFdT + s.c0 * G / mag E (position - s.c)) /
            (4 * E.pi * s.c0 * mag E (position - s.c) ^ 2) / dRef) ∧
    ∃ s1 : Curle K, correct E s w = .ok s1 ∧
      s1.observers = s.observers.map (fun obs =>
        obs.appended (dipolePressure E s.c s.c0 s.dRef obs.position F
          (estimate s.FOldPtr s.FOldOldPtr F w.deltaT).dFdT) w.time) := by
  have _h := hc0
  have _h2 := hr
  constructor
  · intro position G dFdT dRef _
    rw [observedPressure_eq]
    rfl
  · refine ⟨correctMaster E s w F, correct_of_force E s w F hF hm, ?_⟩
    simp only [correctMaster, observedPressure_eq]
    rfl

/-- Witness of C4: the observer of the sample monitor at `(3,4,0)`, five length
units from the source reference at the origin. -/
theorem correct_appends_dipolePressure_witness :
    ∃ s1 : Curle ℚ, correct sampleLib sampleCurle sampleWorld = .ok s1 ∧
      s1.observers = sampleCurle.observers.map (fun obs =>
        obs.appended (dipolePressure sampleLib sampleCurle.c sampleCurle.c0 sampleCurle.dRef
          obs.position ⟨-2, 0, 0⟩
          (estimate sampleCurle.FOldPtr sampleCurle.FOldOldPtr ⟨-2, 0, 0⟩ sampleWorld.deltaT).dFdT)
          sampleWorld.time) :=
  (correct_appends_dipolePressure sampleLib sampleCurle sampleWorld ⟨-2, 0, 0⟩
    (by norm_num [sampleCurle])
    (by
      have h25 : ((3 : ℚ) * 3 + 4 * 4) = 25 := by norm_num
      simp [sampleCurle, SoundObserver.new, mag, sampleLib, ratSqrt, Vec.magSqr, Vec.sub_def,
        h25, natSqrt_one, natSqrt_twentyfive])
    (computeForce_sample _ rfl) rfl).2

/-! ## Execution gating -/

theorem makeFile_eq (s : Curle K) (w : World K) :
    makeFile s w = { s with CurleFilePtr := (makeFile s w).CurleFilePtr } := by
  unfold makeFile writeFileHeader
  split
  · split <;> rfl
  · rfl

theorem makeFile_file (s : Curle K) (w : World K) (hm : (w.master || !w.parRun) = true) :
    ∃ f, (makeFile s w).CurleFilePtr = some f := by
  unfold makeFile writeFileHeader
  simp only [hm, if_true]
  cases h : s.CurleFilePtr with
  | none => exact ⟨_, rfl⟩
  | some f => exact ⟨f, by simp [h]⟩

theorem makeFile_of_not_master (s : Curle K) (w : World K)
    (hm : (w.master || !w.parRun) = false) : makeFile s w = s := by
  simp [makeFile, hm]

/-- The test of the counter in `execute()` lets the call through exactly when
the probe frequency divides the incremented counter. -/
theorem counter_gate (a n : Int) : (Int.tmod a n).natAbs > 0 ↔ ¬ n ∣ a := by
  rw [gt_iff_lt, Int.natAbs_pos, Int.dvd_iff_tmod_eq_zero]

/-- A call that fails the test of the counter. -/
theorem execute_skippedCounter (E : Lib K) (s : Curle K) (w : World K)
    (hact : s.active = true) (hN : s.probeFreq ≠ 0) (hnd : ¬ s.probeFreq ∣ s.probeI + 1) :
    execute E s w = .ok ({ makeFile s w with probeI := s.probeI + 1 }, .skippedCounter) := by
  have h1 : (makeFile s w).probeFreq = s.probeFreq := by rw [makeFile_eq]
  have h2 : (makeFile s w).probeI = s.probeI := by rw [makeFile_eq]
  have hg := (counter_gate (s.probeI + 1) s.probeFreq).mpr hnd
  simp only [execute, hact, h1, h2, hN, hg]
  simp

/-- A call that passes the test of the counter at a time outside the window. -/
theorem execute_skippedTime (E : Lib K) (s : Curle K) (w : World K)
    (hact : s.active = true) (hN : s.probeFreq ≠ 0) (hd : s.probeFreq ∣ s.probeI + 1)
    (ht : w.time < s.timeStart ∨ s.timeEnd < w.time) :
    execute E s w = .ok ({ makeFile s w with probeI := 0 }, .skippedTime) := by
  have h1 : (makeFile s w).probeFreq = s.probeFreq := by rw [makeFile_eq]
  have h2 : (makeFile s w).probeI = s.probeI := by rw [makeFile_eq]
  have h3 : (makeFile s w).timeStart = s.timeStart := by rw [makeFile_eq]
  have h4 : (makeFile s w).timeEnd = s.timeEnd := by rw [makeFile_eq]
  have hg : ¬ (Int.tmod (s.probeI + 1) s.probeFreq).natAbs > 0 := by
    rw [counter_gate]
    exact not_not.mpr hd
  have ht2 : (decide (w.time < s.timeStart) || decide (w.time > s.timeEnd)) = true := by
    simpa using ht
  simp only [execute, hact, h1, h2, h3, h4, hN, hg, ht2]
  simp

/-- The statements of `execute()` from the call of `correct()` on, on the
master, when `correct()` returns `s4` and the file is open. -/
theorem execute_tail_master (E : Lib K) (s3 s4 : Curle K) (w : World K) (f : CurleFile K)
    (hc : correct E s3 w = .ok s4) (hfile : s4.CurleFilePtr = some f)
    (hm : (w.master || !w.parRun) = true) :
    (match correct E s3 w with
      | .error e => (.error e : Except Fatal (Curle K × Outcome))
      | .ok s4 =>
        if w.master || !w.parRun then
          match s4.CurleFilePtr with
          | none => .error .nullPointer
          | some f =>
            let row := (w.time - s4.timeStart,
              s4.observers.map (fun obs : SoundObserver K => obs.apressure))
            let s5 := { s4 with CurleFilePtr := some ⟨f.header, f.rows ++ [row]⟩ }
            .ok (writeFft E s5 w, .propagated)
        else .ok (s4, .propagated)) =
      .ok (writeFft E
        { s4 with CurleFilePtr := some ⟨f.header, f.rows ++
          [(w.time - s4.timeStart,
            s4.observers.map (fun obs : SoundObserver K => obs.apressure))]⟩ } w,
        .propagated) := by
  rw [hc]
  simp only [hm, if_true]
  rw [hfile]

/-- A call that passes both tests on the master: `correct()` runs, one row is
written and `writeFft()` follows. -/
theorem execute_propagated_master (E : Lib K) (s : Curle K) (w : World K) (F : Vec K)
    (hact : s.active = true) (hN : s.probeFreq ≠ 0) (hd : s.probeFreq ∣ s.probeI + 1)
    (ht : s.timeStart ≤ w.time ∧ w.time ≤ s.timeEnd) (hF : computeForce s w = .ok F)
    (hm : (w.master || !w.parRun) = true) :
    ∃ f : CurleFile K, (makeFile s w).CurleFilePtr = some f ∧
      execute E s w = .ok
        (writeFft E
          { correctMaster E { makeFile s w with probeI := 0 } w F with
            CurleFilePtr := some ⟨f.header, f.rows ++
              [(w.time - (makeFile s w).timeStart,
                (correctMaster E { makeFile s w with probeI := 0 } w F).observers.map
                  (fun obs => obs.apressure))]⟩ } w, .propagated) := by
  obtain ⟨f, hf⟩ := makeFile_file s w hm
  refine ⟨f, hf, ?_⟩
  have hN1 : ¬ (makeFile s w).probeFreq = 0 := by rw [makeFile_eq]; exact hN
  have hg : ¬ (Int.tmod ((makeFile s w).probeI + 1) (makeFile s w).probeFreq).natAbs > 0 := by
    rw [counter_gate, makeFile_eq]
    exact not_not.mpr hd
  have ht2 : ¬ (decide (w.time < (makeFile s w).timeStart) ||
      decide (w.time > (makeFile s w).timeEnd)) = true := by
    rw [makeFile_eq]
    simp [ht.1, ht.2]
  have hF3 : computeForce { makeFile s w with probeI := 0 } w = .ok F := by
    rw [computeForce_congr _ s w (by rw [makeFile_eq]) (by rw [makeFile_eq])]
    exact hF
  have hc := correct_of_force E { makeFile s w with probeI := 0 } w F hF3 hm
  have hfile : (correctMaster E { makeFile s w with probeI := 0 } w F).CurleFilePtr = some f := hf
  have hact1 : ¬ (!s.active) = true := by simp [hact]
  unfold execute
  rw [if_neg hact1]
  dsimp only []
  rw [if_neg hN1, if_neg hg, if_neg ht2]
  exact execute_tail_master E _ _ w f hc hfile hm

/-- The statements of `execute()` from the call of `correct()` on, on a
partition other than the master. -/
theorem execute_tail_other (E : Lib K) (s3 s4 : Curle K) (w : World K)
    (hc : correct E s3 w = .ok s4) (hm : (w.master || !w.parRun) = false) :
    (match correct E s3 w with
      | .error e => (.error e : Except Fatal (Curle K × Outcome))
      | .ok s4 =>
        if w.master || !w.parRun then
          match s4.CurleFilePtr with
          | none => .error .nullPointer
          | some f =>
            let row := (w.time - s4.timeStart,
              s4.observers.map (fun obs : SoundObserver K => obs.apressure))
            let s5 := { s4 with CurleFilePtr := some ⟨f.header, f.rows ++ [row]⟩ }
            .ok (writeFft E s5 w, .propagated)
        else .ok (s4, .propagated)) = .ok (s4, .propagated) := by
  rw [hc]
  simp only [hm, Bool.false_eq_true, if_false]

/-- A call that passes both tests on a partition other than the master:
`correct()` takes part in the global sum and leaves the object as it is. -/
theorem execute_propagated_other (E : Lib K) (s : Curle K) (w : World K) (F : Vec K)
    (hact : s.active = true) (hN : s.probeFreq ≠ 0) (hd : s.probeFreq ∣ s.probeI + 1)
    (ht : s.timeStart ≤ w.time ∧ w.time ≤ s.timeEnd) (hF : computeForce s w = .ok F)
    (hm : (w.master || !w.parRun) = false) :
    execute E s w = .ok ({ s with probeI := 0 }, .propagated) := by
  have hmk := makeFile_of_not_master s w hm
  have hg : ¬ (Int.tmod (s.probeI + 1) s.probeFreq).natAbs > 0 := by
    rw [counter_gate]
    exact not_not.mpr hd
  have ht2 : ¬ (decide (w.time < s.timeStart) || decide (w.time > s.timeEnd)) = true := by
    simp [ht.1, ht.2]
  have hF3 : computeForce { s with probeI := 0 } w = .ok F := by
    rw [computeForce_congr { s with probeI := 0 } s w rfl rfl]
    exact hF
  have hc : correct E { s with probeI := 0 } w = .ok { s with probeI := 0 } := by
    simp only [correct, hF3, hm]
    rfl
  have hact1 : ¬ (!s.active) = true := by simp [hact]
  unfold execute
  rw [if_neg hact1, hmk]
  dsimp only []
  rw [if_neg hN, if_neg hg, if_neg ht2]
  exact execute_tail_other E _ _ w hc hm

theorem writeFft_eq (E : Lib K) (s : Curle K) (w : World K) :
    writeFft E s w = { s with fftFiles := (writeFft E s w).fftFiles } := by
  unfold writeFft
  split <;> rfl

theorem sameSetup_makeFile (s : Curle K) (w : World K) (i : Int) :
    SameSetup s { makeFile s w with probeI := i } := by
  rw [makeFile_eq]
  exact ⟨rfl, rfl, rfl, rfl, rfl, rfl, rfl, rfl, rfl, rfl⟩

/-- What one call of `execute()` does to an active monitor whose patches
resolve: it returns, leaves the set-up alone, moves the counter, and runs
`correct()` exactly when the probe frequency divides the incremented counter
and the time lies in the closed window. -/
theorem execute_summary (E : Lib K) (s : Curle K) (w : World K) (hact : s.active = true)
    (hN : s.probeFreq ≠ 0) (hres : ∃ F, computeForce s w = .ok F) :
    ∃ (s1 : Curle K) (o : Outcome), execute E s w = .ok (s1, o) ∧ SameSetup s s1 ∧
      s1.probeI = (if s.probeFreq ∣ s.probeI + 1 then 0 else s.probeI + 1) ∧
      (o = .propagated ↔
        (s.probeFreq ∣ s.probeI + 1 ∧ s.timeStart ≤ w.time ∧ w.time ≤ s.timeEnd)) ∧
      (o ≠ .propagated → s1.observers = s.observers ∧ s1.FOldPtr = s.FOldPtr ∧
        s1.FOldOldPtr = s.FOldOldPtr) ∧
      ((w.master || !w.parRun) = true → o = .propagated →
        ∃ F, computeForce s w = .ok F ∧
          s1.observers = s.observers.map (fun obs =>
            obs.appended (dipolePressure E s.c s.c0 s.dRef obs.position F
              (estimate s.FOldPtr s.FOldOldPtr F w.deltaT).dFdT) w.time)) := by
  obtain ⟨F, hF⟩ := hres
  by_cases hd : s.probeFreq ∣ s.probeI + 1
  · by_cases ht : s.timeStart ≤ w.time ∧ w.time ≤ s.timeEnd
    · cases hm : (w.master || !w.parRun) with
      | true =>
        obtain ⟨f, _, hex⟩ := execute_propagated_master E s w F hact hN hd ht hF hm
        refine ⟨_, _, hex, ?_, ?_, ?_, ?_, ?_⟩
        · rw [writeFft_eq]
          exact sameSetup_makeFile s w 0
        · rw [writeFft_eq, if_pos hd]
          rfl
        · simp [hd, ht]
        · intro h; exact absurd rfl h
        · intro _ _
          refine ⟨F, hF, ?_⟩
          rw [writeFft_eq]
          show (correctMaster E { makeFile s w with probeI := 0 } w F).observers = _
          rw [makeFile_eq]
          simp only [correctMaster, observedPressure_eq]
          rfl
      | false =>
        refine ⟨_, _, execute_propagated_other E s w F hact hN hd ht hF hm, ?_, ?_, ?_, ?_, ?_⟩
        · exact ⟨rfl, rfl, rfl, rfl, rfl, rfl, rfl, rfl, rfl, rfl⟩
        · rw [if_pos hd]
        · simp [hd, ht]
        · intro h; exact absurd rfl h
        · intro h; simp at h
    · have ht2 : w.time < s.timeStart ∨ s.timeEnd < w.time := by
        by_contra hcon
        rw [not_or, not_lt, not_lt] at hcon
        exact ht hcon
      refine ⟨_, _, execute_skippedTime E s w hact hN hd ht2, sameSetup_makeFile s w 0, ?_, ?_,
        ?_, ?_⟩
      · rw [if_pos hd]
      · simp [ht]
      · intro _
        rw [makeFile_eq]
        exact ⟨rfl, rfl, rfl⟩
      · intro _ h; simp at h
  · refine ⟨_, _, execute_skippedCounter E s w hact hN hd, sameSetup_makeFile s w _, ?_, ?_, ?_,
      ?_⟩
    · rw [if_neg hd, makeFile_eq]
    · simp [hd]
    · intro _
      rw [makeFile_eq]
      exact ⟨rfl, rfl, rfl⟩
    · intro _ h; simp at h

/-! ## Runs of `execute()` -/

theorem sameSetup_trans {s t u : Curle K} (h1 : SameSetup s t) (h2 : SameSetup t u) :
    SameSetup s u := by
  obtain ⟨a1, a2, a3, a4, a5, a6, a7, a8, a9, a10⟩ := h1
  obtain ⟨b1, b2, b3, b4, b5, b6, b7, b8, b9, b10⟩ := h2
  exact ⟨b1.trans a1, b2.trans a2, b3.trans a3, b4.trans a4, b5.trans a5, b6.trans a6,
    b7.trans a7, b8.trans a8, b9.trans a9, b10.trans a10⟩

theorem sameSetup_refl (s : Curle K) : SameSetup s s :=
  ⟨rfl, rfl, rfl, rfl, rfl, rfl, rfl, rfl, rfl, rfl⟩

theorem sameSetup_computeForce {s t : Curle K} (h : SameSetup s t) (w : World K) :
    computeForce t w = computeForce s w :=
  computeForce_congr t s w h.2.2.2.1 h.2.2.2.2.2.2.2.2.1

theorem forall₂_extends_refl (l : List (SoundObserver K)) : List.Forall₂ (Extends 0) l l := by
  induction l with
  | nil => exact List.Forall₂.nil
  | cons a l ih =>
    exact List.Forall₂.cons ⟨rfl, rfl, rfl, rfl, ⟨[], by simp, rfl⟩, ⟨[], by simp, rfl⟩⟩ ih

theorem forall₂_extends_appended (l : List (SoundObserver K)) (f : SoundObserver K → K) (t : K) :
    List.Forall₂ (Extends 1) l (l.map (fun obs => obs.appended (f obs) t)) := by
  induction l with
  | nil => exact List.Forall₂.nil
  | cons a l ih =>
    exact List.Forall₂.cons ⟨rfl, rfl, rfl, rfl, ⟨[f a], rfl, rfl⟩, ⟨[t], rfl, rfl⟩⟩ ih

theorem extends_trans {n m : Nat} {a b c : SoundObserver K} (h1 : Extends n a b)
    (h2 : Extends m b c) : Extends (n + m) a c := by
  obtain ⟨a1, a2, a3, a4, ⟨ps, hps, hpl⟩, ⟨ts, hts, htl⟩⟩ := h1
  obtain ⟨b1, b2, b3, b4, ⟨qs, hqs, hql⟩, ⟨us, hus, hul⟩⟩ := h2
  refine ⟨b1.trans a1, b2.trans a2, b3.trans a3, b4.trans a4, ⟨ps ++ qs, ?_, ?_⟩,
    ⟨ts ++ us, ?_, ?_⟩⟩
  · rw [hqs, hps, List.append_assoc]
  · rw [List.length_append, hpl, hql]
  · rw [hus, hts, List.append_assoc]
  · rw [List.length_append, htl, hul]

theorem forall₂_extends_trans {n m : Nat} :
    ∀ {l1 l2 l3 : List (SoundObserver K)}, List.Forall₂ (Extends n) l1 l2 →
      List.Forall₂ (Extends m) l2 l3 → List.Forall₂ (Extends (n + m)) l1 l3
  | _, _, _, List.Forall₂.nil, List.Forall₂.nil => List.Forall₂.nil
  | _, _, _, List.Forall₂.cons h1 t1, List.Forall₂.cons h2 t2 =>
    List.Forall₂.cons (extends_trans h1 h2) (forall₂_extends_trans t1 t2)

/-- The counter test in terms of the number of the call. -/
theorem counterAt_dvd_iff {s : Curle K} {k : Nat} (h : CounterAt s k) :
    s.probeFreq ∣ s.probeI + 1 ↔ s.probeFreq ∣ (k : Int) + 1 := by
  obtain ⟨_, _, q, hq⟩ := h
  rw [hq, add_assoc]
  exact (Int.dvd_add_right (Dvd.intro q rfl)).symm

/-- The counter after one more call. -/
theorem counterAt_step {s s1 : Curle K} {k : Nat} (h : CounterAt s k)
    (hf : s1.probeFreq = s.probeFreq)
    (hp : s1.probeI = (if s.probeFreq ∣ s.probeI + 1 then 0 else s.probeI + 1)) :
    CounterAt s1 (k + 1) := by
  obtain ⟨h0, hlt, q, hq⟩ := h
  have hNpos : 0 < s.probeFreq := lt_of_le_of_lt h0 hlt
  by_cases hd : s.probeFreq ∣ s.probeI + 1
  · rw [if_pos hd] at hp
    obtain ⟨r, hr⟩ := hd
    refine ⟨by rw [hp], by rw [hp, hf]; exact hNpos, q + r, ?_⟩
    rw [hf, hp, Nat.cast_add, Nat.cast_one, hq, mul_add, ← hr]
    ring
  · rw [if_neg hd] at hp
    have hne : s.probeI + 1 ≠ s.probeFreq := fun he => hd (he ▸ dvd_refl _)
    refine ⟨by rw [hp]; omega, by rw [hp, hf]; omega, q, ?_⟩
    rw [hf, hp, Nat.cast_add, Nat.cast_one, hq]
    ring

/-- A run of `execute()` on an active monitor whose patches resolve returns,
keeps the set-up, counts the calls in `probeI_` modulo the probe frequency and,
on the master, gives every observer one sample per accepted step. -/
theorem run_summary (E : Lib K) (ws : List (World K)) :
    ∀ (s : Curle K) (k : Nat), s.active = true → CounterAt s k →
      (∀ w ∈ ws, ∃ F, computeForce s w = .ok F) →
      ∃ s1 : Curle K, run E s ws = .ok s1 ∧ SameSetup s s1 ∧ CounterAt s1 (k + ws.length) ∧
        ((∀ w ∈ ws, (w.master || !w.parRun) = true) →
          List.Forall₂
            (Extends (acceptedCount s.probeFreq s.timeStart s.timeEnd k (ws.map (fun w => w.time))))
            s.observers s1.observers) := by
  induction ws with
  | nil =>
    intro s k _ hc _
    exact ⟨s, rfl, sameSetup_refl s, hc, fun _ => forall₂_extends_refl _⟩
  | cons w rest ih =>
    intro s k hact hc hres
    have hN : s.probeFreq ≠ 0 := ne_of_gt (lt_of_le_of_lt hc.1 hc.2.1)
    obtain ⟨s1, o, hex, hset, hp, ho, hskip, hprop⟩ :=
      execute_summary E s w hact hN (hres w (List.mem_cons_self _ _))
    have hact1 : s1.active = true := hset.2.1.trans hact
    have hc1 : CounterAt s1 (k + 1) := counterAt_step hc hset.2.2.1 hp
    have hres1 : ∀ v ∈ rest, ∃ F, computeForce s1 v = .ok F := by
      intro v hv
      rw [sameSetup_computeForce hset v]
      exact hres v (List.mem_cons_of_mem _ hv)
    obtain ⟨s2, hrun, hset2, hc2, hobs2⟩ := ih s1 (k + 1) hact1 hc1 hres1
    refine ⟨s2, ?_, sameSetup_trans hset hset2, ?_, ?_⟩
    · simp only [run, hex]
      exact hrun
    · have : k + (w :: rest).length = k + 1 + rest.length := by
        simp only [List.length_cons]
        omega
      rw [this]
      exact hc2
    · intro hm
      have hm1 := hm w (List.mem_cons_self _ _)
      have hrest := hobs2 (fun v hv => hm v (List.mem_cons_of_mem _ hv))
      rw [hset.2.2.1, hset.2.2.2.2.1, hset.2.2.2.2.2.1] at hrest
      simp only [List.map_cons, acceptedCount]
      refine forall₂_extends_trans ?_ hrest
      by_cases hacc : s.probeFreq ∣ (k : Int) + 1 ∧ s.timeStart ≤ w.time ∧ w.time ≤ s.timeEnd
      · rw [if_pos hacc]
        have hprop1 : o = .propagated := ho.mpr ⟨(counterAt_dvd_iff hc).mpr hacc.1, hacc.2⟩
        obtain ⟨F, _, hobs⟩ := hprop hm1 hprop1
        rw [hobs]
        exact forall₂_extends_appended _ _ _
      · rw [if_neg hacc]
        have hnp : o ≠ .propagated := by
          intro h
          have := ho.mp h
          exact hacc ⟨(counterAt_dvd_iff hc).mp this.1, this.2⟩
        rw [(hskip hnp).1]
        exact forall₂_extends_refl _

theorem counterAt_zero {s : Curle K} (hcnt : s.probeI = 0) (hN : 1 ≤ s.probeFreq) :
    CounterAt s 0 := by
  refine ⟨by rw [hcnt], by rw [hcnt]; omega, 0, ?_⟩
  rw [hcnt]
  simp

theorem run_append (E : Lib K) (xs ys : List (World K)) :
    ∀ (s sx : Curle K), run E s xs = .ok sx → run E s (xs ++ ys) = run E sx ys := by
  induction xs with
  | nil =>
    intro s sx h
    simp only [run, Except.ok.injEq] at h
    rw [List.nil_append, h]
  | cons w rest ih =>
    intro s sx h
    simp only [run, List.cons_append] at h ⊢
    cases hex : execute E s w with
    | error e => rw [hex] at h; simp at h
    | ok r =>
      rw [hex] at h
      exact ih r.1 sx h

/-- C5: for every probe frequency `N >= 1` and an active monitor whose counter
starts at 0 and whose patches resolve, the call of `execute()` number `k`
(after `k - 1` earlier calls) returns, and it runs `correct()` if and only if
`N` divides `k` and the time `t` of the call satisfies
`timeStart <= t <= timeEnd`; when it does so on the master, every observer
receives the dipole pressure of the computed force, and when it does not, the
observers are left as they were. -/
theorem execute_gating (E : Lib K) (s0 : Curle K) (pre : List (World K)) (w : World K)
    (hact : s0.active = true) (hcnt : s0.probeI = 0) (hN : 1 ≤ s0.probeFreq)
    (hres : ∀ v ∈ pre ++ [w], ∃ F, computeForce s0 v = .ok F) :
    ∃ (s s1 : Curle K) (o : Outcome), run E s0 pre = .ok s ∧ execute E s w = .ok (s1, o) ∧
      (o = .propagated ↔
        (s0.probeFreq ∣ ((pre.length + 1 : Nat) : Int) ∧ s0.timeStart ≤ w.time ∧
          w.time ≤ s0.timeEnd)) ∧
      (o ≠ .propagated → s1.observers = s.observers) ∧
      ((w.master || !w.parRun) = true → o = .propagated →
        ∃ F, computeForce s0 w = .ok F ∧
          s1.observers = s.observers.map (fun obs =>
            obs.appended (dipolePressure E s0.c s0.c0 s0.dRef obs.position F
              (estimate s.FOldPtr s.FOldOldPtr F w.deltaT).dFdT) w.time)) := by
  obtain ⟨s, hrun, hset, hc, _⟩ := run_summary E pre s0 0 hact (counterAt_zero hcnt hN)
    (fun v hv => hres v (List.mem_append_left _ hv))
  rw [Nat.zero_add] at hc
  have hactS : s.active = true := hset.2.1.trans hact
  have hNS : s.probeFreq ≠ 0 := by
    rw [hset.2.2.1]
    omega
  have hresS : ∃ F, computeForce s w = .ok F := by
    rw [sameSetup_computeForce hset w]
    exact hres w (List.mem_append_right _ (List.mem_singleton_self w))
  obtain ⟨s1, o, hex, _, _, ho, hskip, hprop⟩ := execute_summary E s w hactS hNS hresS
  refine ⟨s, s1, o, hrun, hex, ?_, fun h => (hskip h).1, ?_⟩
  · rw [ho, (counterAt_dvd_iff hc), hset.2.2.1, hset.2.2.2.2.1, hset.2.2.2.2.2.1, Nat.cast_add, Nat.cast_one]
  · intro hm hp
    obtain ⟨F, hF, hobs⟩ := hprop hm hp
    refine ⟨F, by rw [← sameSetup_computeForce hset w]; exact hF, ?_⟩
    rw [hobs, hset.2.2.2.2.2.2.1, hset.2.2.2.2.2.2.2.1, hset.2.2.2.2.2.2.2.2.2]

/-- Witness of C5: with probe frequency 4 and times inside the window, the
fourth call propagates. -/
theorem execute_gating_witness :
    ∃ (s s1 : Curle ℚ), run sampleLib sampleCurle4 [sampleWorld, sampleWorld, sampleWorld] = .ok s ∧
      execute sampleLib s sampleWorld = .ok (s1, .propagated) := by
  obtain ⟨s, s1, o, h1, h2, h3, _⟩ :=
    execute_gating sampleLib sampleCurle4 [sampleWorld, sampleWorld, sampleWorld] sampleWorld
      rfl rfl (by decide)
      (by
        intro v hv
        simp only [List.cons_append, List.nil_append, List.mem_cons, List.mem_singleton,
          List.not_mem_nil, or_false, or_self] at hv
        subst hv
        exact ⟨_, computeForce_sample _ rfl⟩)
  have ho : o = .propagated := by
    rw [h3]
    refine ⟨by decide, ?_, ?_⟩ <;> norm_num [sampleCurle4, sampleCurle, sampleWorld]
  rw [ho] at h2
  exact ⟨s, s1, h1, h2⟩

/-- C6: for every call of `execute()` on an active monitor that is skipped,
because the incremented counter is not a multiple of the probe frequency or
because the time lies outside the window from `timeStart` to `timeEnd`, the
call returns through one of the two skipping exits and the observers with all
their samples and the force history (`FOldPtr_`, `FOldOldPtr_`) are what they
were before, whatever the counter value. -/
theorem execute_skip_frame (E : Lib K) (s : Curle K) (w : World K) (hact : s.active = true)
    (hN : s.probeFreq ≠ 0)
    (hskip : ¬ s.probeFreq ∣ s.probeI + 1 ∨ w.time < s.timeStart ∨ s.timeEnd < w.time) :
    ∃ (s1 : Curle K) (o : Outcome), execute E s w = .ok (s1, o) ∧
      (o = .skippedCounter ∨ o = .skippedTime) ∧ s1.observers = s.observers ∧
      s1.FOldPtr = s.FOldPtr ∧ s1.FOldOldPtr = s.FOldOldPtr := by
  by_cases hd : s.probeFreq ∣ s.probeI + 1
  · have ht : w.time < s.timeStart ∨ s.timeEnd < w.time := by
      rcases hskip with h | h
      · exact absurd hd h
      · exact h
    refine ⟨_, _, execute_skippedTime E s w hact hN hd ht, Or.inr rfl, ?_⟩
    rw [makeFile_eq]
    exact ⟨rfl, rfl, rfl⟩
  · refine ⟨_, _, execute_skippedCounter E s w hact hN hd, Or.inl rfl, ?_⟩
    rw [makeFile_eq]
    exact ⟨rfl, rfl, rfl⟩

/-- Witness of C6: a call after the end of the window on the sample monitor. -/
theorem execute_skip_frame_witness :
    ∃ (s1 : Curle ℚ) (o : Outcome), execute sampleLib sampleCurle sampleWorldLate = .ok (s1, o) ∧
      (o = .skippedCounter ∨ o = .skippedTime) ∧ s1.observers = sampleCurle.observers ∧
      s1.FOldPtr = sampleCurle.FOldPtr ∧ s1.FOldOldPtr = sampleCurle.FOldOldPtr :=
  execute_skip_frame sampleLib sampleCurle sampleWorldLate rfl (by decide)
    (Or.inr (Or.inr (by norm_num [sampleCurle, sampleWorldLate, sampleWorld])))

theorem forall₂_extends_length {n : Nat} {l1 l2 : List (SoundObserver K)}
    (h : List.Forall₂ (Extends n) l1 l2) (hfresh : ∀ a ∈ l1, a.p = [] ∧ a.time = []) :
    ∀ b ∈ l2, b.p.length = n ∧ b.time.length = n := by
  induction h with
  | nil => intro b hb; exact absurd hb (List.not_mem_nil b)
  | cons hab _ ih =>
    intro b hb
    rcases List.mem_cons.mp hb with hb1 | hb1
    · subst hb1
      obtain ⟨_, _, _, _, ⟨ps, hps, hpl⟩, ⟨ts, hts, htl⟩⟩ := hab
      have hf := hfresh _ (List.mem_cons_self _ _)
      rw [hps, hts, hf.1, hf.2]
      exact ⟨by simpa using hpl, by simpa using htl⟩
    · exact ih (fun a ha => hfresh a (List.mem_cons_of_mem _ ha)) b hb1

/-- C7: on the master, for an active monitor whose counter starts at 0, whose
probe frequency is at least 1, whose patches resolve and whose observers start
without samples, every run of `execute()` returns, and after the first `n`
calls every observer holds as many pressure samples and as many time samples
as there were accepted steps among these calls (so all observers have
sequences of one length); the rest of the run only appends to these
sequences, one pressure and one time per accepted step, and changes nothing
that was there. -/
theorem run_observer_samples (E : Lib K) (s0 : Curle K) (ws : List (World K))
    (hact : s0.active = true) (hcnt : s0.probeI = 0) (hN : 1 ≤ s0.probeFreq)
    (hres : ∀ w ∈ ws, ∃ F, computeForce s0 w = .ok F)
    (hm : ∀ w ∈ ws, (w.master || !w.parRun) = true)
    (hfresh : ∀ obs ∈ s0.observers, obs.p = [] ∧ obs.time = []) :
    ∀ n, n ≤ ws.length →
      ∃ (sn s : Curle K), run E s0 (ws.take n) = .ok sn ∧ run E s0 ws = .ok s ∧
        (∀ obs ∈ sn.observers,
          obs.p.length = acceptedCount s0.probeFreq s0.timeStart s0.timeEnd 0
            ((ws.take n).map (fun w => w.time)) ∧
          obs.time.length = acceptedCount s0.probeFreq s0.timeStart s0.timeEnd 0
            ((ws.take n).map (fun w => w.time))) ∧
        List.Forall₂
          (Extends (acceptedCount s0.probeFreq s0.timeStart s0.timeEnd n
            ((ws.drop n).map (fun w => w.time))))
          sn.observers s.observers := by
  intro n hn
  obtain ⟨sn, hrun, hset, hc, hobs⟩ := run_summary E (ws.take n) s0 0 hact
    (counterAt_zero hcnt hN) (fun w hw => hres w (List.mem_of_mem_take hw))
  have hlen : (ws.take n).length = n := by simp [List.length_take, hn]
  rw [Nat.zero_add, hlen] at hc
  have hactn : sn.active = true := hset.2.1.trans hact
  obtain ⟨s, hrun2, _, _, hobs2⟩ := run_summary E (ws.drop n) sn n hactn hc
    (fun w hw => by
      rw [sameSetup_computeForce hset w]
      exact hres w (List.mem_of_mem_drop hw))
  refine ⟨sn, s, hrun, ?_, ?_, ?_⟩
  · have := run_append E (ws.take n) (ws.drop n) s0 sn hrun
    rw [List.take_append_drop] at this
    rw [this]
    exact hrun2
  · exact forall₂_extends_length (hobs (fun w hw => hm w (List.mem_of_mem_take hw))) hfresh
  · have h := hobs2 (fun w hw => hm w (List.mem_of_mem_drop hw))
    rw [hset.2.2.1, hset.2.2.2.2.1, hset.2.2.2.2.2.1] at h
    exact h

/-- Witness of C7: four calls on the sample monitor with probe frequency 4. -/
theorem run_observer_samples_witness :
    ∃ (sn s : Curle ℚ),
      run sampleLib sampleCurle4 ([sampleWorld, sampleWorld, sampleWorld, sampleWorld].take 4)
        = .ok sn ∧
      run sampleLib sampleCurle4 [sampleWorld, sampleWorld, sampleWorld, sampleWorld] = .ok s ∧
      (∀ obs ∈ sn.observers,
        obs.p.length = acceptedCount sampleCurle4.probeFreq sampleCurle4.timeStart
          sampleCurle4.timeEnd 0
            (([sampleWorld, sampleWorld, sampleWorld, sampleWorld].take 4).map (fun w => w.time)) ∧
        obs.time.length = acceptedCount sampleCurle4.probeFreq sampleCurle4.timeStart
          sampleCurle4.timeEnd 0
            (([sampleWorld, sampleWorld, sampleWorld, sampleWorld].take 4).map (fun w => w.time))) ∧
      List.Forall₂
        (Extends (acceptedCount sampleCurle4.probeFreq sampleCurle4.timeStart
          sampleCurle4.timeEnd 4
            (([sampleWorld, sampleWorld, sampleWorld, sampleWorld].drop 4).map (fun w => w.time))))
        sn.observers s.observers :=
  run_observer_samples sampleLib sampleCurle4 [sampleWorld, sampleWorld, sampleWorld, sampleWorld]
    rfl rfl (by decide)
    (by
      intro v hv
      simp only [List.mem_cons, List.mem_singleton, List.not_mem_nil, or_false, or_self] at hv
      subst hv
      exact ⟨_, computeForce_sample _ rfl⟩)
    (by
      intro v hv
      simp only [List.mem_cons, List.mem_singleton, List.not_mem_nil, or_false, or_self] at hv
      subst hv
      rfl)
    (by
      intro obs hobs
      simp only [sampleCurle4, sampleCurle, List.mem_singleton] at hobs
      subst hobs
      exact ⟨rfl, rfl⟩)
    4 (by simp)

/-! ## Force on the patches -/

theorem findPatchID_ge (boundary : List (Patch K)) (n : String) :
    -1 ≤ findPatchID boundary n := by
  induction boundary with
  | nil => simp [findPatchID]
  | cons Q rest ih =>
    simp only [findPatchID]
    split
    · omega
    · split <;> omega

/-- A name that resolves is found by `findPatchID` at the index of its patch. -/
theorem patchAt_of_patchNamed (boundary : List (Patch K)) (n : String) (P : Patch K)
    (h : patchNamed boundary n = some P) :
    0 ≤ findPatchID boundary n ∧ patchAt boundary (findPatchID boundary n) = .ok P := by
  induction boundary with
  | nil => simp [patchNamed] at h
  | cons Q rest ih =>
    by_cases hQ : Q.name = n
    · have hP : Q = P := by simpa [patchNamed, List.find?, hQ] using h
      subst hP
      simp [findPatchID, hQ, patchAt]
    · have hrest : patchNamed rest n = some P := by
        simpa [patchNamed, List.find?, hQ] using h
      obtain ⟨h0, hat⟩ := ih hrest
      have hlt : ¬ findPatchID rest n < 0 := not_lt.mpr h0
      have hlt1 : ¬ findPatchID rest n + 1 < 0 := by omega
      have htn : (findPatchID rest n + 1).toNat = (findPatchID rest n).toNat + 1 := by omega
      simp only [patchAt, hlt, if_false] at hat
      simp only [findPatchID, hQ, if_false, hlt]
      refine ⟨by omega, ?_⟩
      simp only [patchAt, hlt1, if_false, htn, List.getElem?_cons_succ]
      exact hat

/-- A name that does not resolve gives the index `-1`. -/
theorem findPatchID_of_patchNamed_none (boundary : List (Patch K)) (n : String)
    (h : patchNamed boundary n = none) : findPatchID boundary n = -1 := by
  induction boundary with
  | nil => rfl
  | cons Q rest ih =>
    by_cases hQ : Q.name = n
    · simp [patchNamed, List.find?, hQ] at h
    · have hrest : patchNamed rest n = none := by
        simpa [patchNamed, List.find?, hQ] using h
      simp [findPatchID, hQ, ih hrest]

theorem gSum_eq_sum (vs : List (Vec K)) : gSum vs = vs.sum := by
  have h : ∀ (l : List (Vec K)) (a : Vec K), l.foldl (fun acc v => acc + v) a = a + l.sum := by
    intro l
    induction l with
    | nil => intro a; simp
    | cons v l ih => intro a; simp [List.foldl, ih, add_assoc]
  simp [gSum, h]

theorem normalStress_of_patchNamed (s : Curle K) (w : World K) (n : String) (P : Patch K)
    (h : patchNamed w.boundary n = some P) :
    normalStress s w n = .ok (P.faces.map (faceStress s w)) := by
  obtain ⟨_, hat⟩ := patchAt_of_patchNamed w.boundary n P h
  simp only [normalStress, hat]
  by_cases hp : w.pIsPressure = true
  · simp [hp, faceStress]
  · by_cases hr : s.rhoRef < 0
    · simp [hp, hr, faceStress, List.zipWith_map_left, List.zipWith_map_right,
        List.zipWith_same]
    · simp [hp, hr, faceStress]

theorem forceLoop_of_patchNamed (s : Curle K) (w : World K) :
    ∀ (names : List String) (patches : List (Patch K)) (F : Vec K),
      List.Forall₂ (fun n P => patchNamed w.boundary n = some P) names patches →
      forceLoop s w names F = .ok (F + patchForce s w patches) := by
  intro names patches F h
  induction h generalizing F with
  | nil => simp [forceLoop, patchForce]
  | @cons n P names patches hnP _ ih =>
    obtain ⟨_, hat⟩ := patchAt_of_patchNamed w.boundary n P hnP
    simp only [forceLoop, normalStress_of_patchNamed s w n P hnP, hat]
    rw [ih]
    congr 1
    simp only [patchForce, List.map_cons, List.sum_cons, gSum_eq_sum, List.zipWith_map_left,
      List.zipWith_map_right, List.zipWith_same]
    abel

/-- C8: for every list of configured patches that resolve on the mesh, with
per-face values `s_f` and face-area vectors `S_f`, the force that `correct()`
computes is minus the sum over the configured patches and over their faces of
`q_f * S_f`, where `q_f = s_f` if the field has pressure dimensions,
`q_f = s_f * rho_f` if it has not and `rhoRef < 0`, and `q_f = s_f * rhoRef` if
it has not and `rhoRef >= 0`; on the master this is the force that `correct()`
then hands to the estimator and to the propagation. -/
theorem computeForce_patchForce (E : Lib K) (s : Curle K) (w : World K)
    (patches : List (Patch K))
    (hres : List.Forall₂ (fun n P => patchNamed w.boundary n = some P) s.patchNames patches) :
    computeForce s w = .ok
      (-(patches.map (fun P : Patch K => (P.faces.map (fun f : Face K =>
        ((if w.pIsPressure then f.p else if s.rhoRef < 0 then f.p * f.rho
          else f.p * s.rhoRef : K) * f.Sf : Vec K))).sum)).sum) ∧
    ((w.master || !w.parRun) = true →
      correct E s w = .ok (correctMaster E s w (patchForce s w patches))) := by
  have h : computeForce s w = .ok (patchForce s w patches) := by
    rw [computeForce, forceLoop_of_patchNamed s w _ patches _ hres]
    congr 1
    exact zero_add _
  exact ⟨h, fun hm => correct_of_force E s w _ h hm⟩

/-- Witness of C8: the single patch of the sample mesh. -/
theorem computeForce_patchForce_witness :
    computeForce sampleCurle sampleWorld =
      .ok (patchForce sampleCurle sampleWorld [⟨"wall", [⟨⟨0, 0, 0⟩, ⟨1, 0, 0⟩, 2, 1⟩]⟩]) :=
  (computeForce_patchForce sampleLib sampleCurle sampleWorld
    [⟨"wall", [⟨⟨0, 0, 0⟩, ⟨1, 0, 0⟩, 2, 1⟩]⟩]
    (List.Forall₂.cons (by simp [patchNamed, sampleWorld]) List.Forall₂.nil)).1

/-! ## Set-up -/

/-- What `calcDistances()` does when the first configured name does not
resolve: the fatal error with the name and the names of the patches. -/
theorem calcDistances_of_first_unresolved (s : Curle K) (w : World K) (n : String)
    (rest : List String) (hact : s.active = true) (hnames : s.patchNames = n :: rest)
    (hP : patchNamed w.boundary n = none) :
    calcDistances s w = .error (.patchNotFound n (w.boundary.map (fun P => P.name))) := by
  have hid := findPatchID_of_patchNamed_none w.boundary n hP
  simp [calcDistances, hact, hnames, hid]

/-- C9, the code at the input of the claim: with the two patches `front` and
`back` configured, of one face each with centres `(0,0,0)` and `(2,0,0)`,
`calcDistances()` sets `c_` to `(0,0,0)`, the centre of the face of the first
patch, while the mean over the faces of both patches is `(1,0,0)`. -/
theorem calcDistances_first_patch_only :
    construct "curle" true (sampleDict ["front", "back"]) twoPatchWorld =
      .ok (sampleConfigured ["front", "back"] ⟨0, 0, 0⟩) ∧
    patchNamed twoPatchWorld.boundary "front" = some ⟨"front", [⟨⟨0, 0, 0⟩, ⟨1, 0, 0⟩, 1, 1⟩]⟩ ∧
    patchNamed twoPatchWorld.boundary "back" = some ⟨"back", [⟨⟨2, 0, 0⟩, ⟨1, 0, 0⟩, 1, 1⟩]⟩ ∧
    meanFaceCentre twoPatchWorld.boundary = ⟨1, 0, 0⟩ := by
  refine ⟨?_, ?_, ?_, ?_⟩
  · simp [construct, read, initial, sampleDict, lookup, readObservers, calcDistances,
      twoPatchWorld, findPatchID, patchAt, gSum, Vec.add_def, Vec.div_def, Vec.zero_def,
      bind, Except.bind, sampleConfigured]
  · simp [patchNamed, twoPatchWorld]
  · simp [patchNamed, twoPatchWorld]
  · simp [meanFaceCentre, twoPatchWorld, Vec.add_def, Vec.div_def, Vec.zero_def]

/-- C10, the code at a list whose second name does not resolve: on the sample
mesh, whose only patch is `wall`, the name `inlet` resolves to no patch, yet
configuration with the patch names `wall`, `inlet` returns without a fatal
error, and the later call of `correct()` reads outside the patch list; with the
same name in the first place configuration stops with the error that reports
the name and the valid patch names. -/
theorem read_checks_first_patch_only :
    patchNamed sampleWorld.boundary "inlet" = none ∧
    construct "curle" true (sampleDict ["wall", "inlet"]) sampleWorld =
      .ok (sampleConfigured ["wall", "inlet"] ⟨0, 0, 0⟩) ∧
    correct sampleLib (sampleConfigured ["wall", "inlet"] ⟨0, 0, 0⟩) sampleWorld =
      .error .outOfRange ∧
    construct "curle" true (sampleDict ["inlet", "wall"]) sampleWorld =
      .error (.patchNotFound "inlet" ["wall"]) := by
  refine ⟨?_, ?_, ?_, ?_⟩
  · simp [patchNamed, sampleWorld]
  · simp [construct, read, initial, sampleDict, lookup, readObservers, calcDistances,
      sampleWorld, findPatchID, patchAt, gSum, Vec.add_def, Vec.div_def, Vec.zero_def,
      bind, Except.bind, sampleConfigured]
  · simp [correct, computeForce, forceLoop, normalStress, sampleConfigured, sampleWorld,
      findPatchID, patchAt]
  · simp [construct, read, initial, sampleDict, lookup, readObservers, calcDistances,
      sampleWorld, findPatchID, bind, Except.bind]

/-! ## History of the estimator -/

/-- The force on the sample mesh at time `t`. -/
theorem computeForce_sampleAt (s : Curle ℚ) (t : ℚ) (h : s.patchNames = ["wall"]) :
    computeForce s (sampleWorldAt t) = .ok ⟨t, 0, 0⟩ := by
  simp [computeForce, forceLoop, h, sampleWorldAt, normalStress, findPatchID, patchAt, gSum,
    Vec.sub_def, Vec.add_def, Vec.smul_def, Vec.zero_def]

theorem correctSeq_append (E : Lib K) (xs ys : List (World K)) :
    ∀ (s sx : Curle K), correctSeq E s xs = .ok sx →
      correctSeq E s (xs ++ ys) = correctSeq E sx ys := by
  induction xs with
  | nil =>
    intro s sx h
    simp only [correctSeq, Except.ok.injEq] at h
    rw [List.nil_append, h]
  | cons w rest ih =>
    intro s sx h
    simp only [correctSeq, List.cons_append] at h ⊢
    cases hc : correct E s w with
    | error e => rw [hc] at h; simp at h
    | ok r =>
      rw [hc] at h
      exact ih r sx h

/-- The history update of `correct()`: the new force becomes `FOldPtr_` and, when
`FOldOldPtr_` is empty whenever `FOldPtr_` is, the old `FOldPtr_` becomes
`FOldOldPtr_`. -/
theorem estimate_history (P Q : Option (Vec K)) (F : Vec K) (dt : K) (h : P = none → Q = none) :
    (estimate P Q F dt).FOldPtr = some F ∧ (estimate P Q F dt).FOldOldPtr = P := by
  cases P with
  | none => simp [estimate, h rfl]
  | some P => cases Q <;> simp [estimate]

/-- The two pointers after a sequence of calls of `correct()` on the master from
a fresh estimator: the last force and the last but one. -/
theorem correctSeq_history (E : Lib K) (s : Curle K) (h1 : s.FOldPtr = none)
    (h2 : s.FOldOldPtr = none) (steps : List (World K × Vec K))
    (hsteps : ∀ p ∈ steps, computeForce s p.1 = .ok p.2 ∧ (p.1.master || !p.1.parRun) = true) :
    ∃ sn : Curle K, correctSeq E s (steps.map Prod.fst) = .ok sn ∧
      sn.patchNames = s.patchNames ∧ sn.rhoRef = s.rhoRef ∧
      sn.FOldPtr = (steps.map Prod.snd).getLast? ∧
      sn.FOldOldPtr = (steps.map Prod.snd).dropLast.getLast? := by
  induction steps using List.reverseRecOn with
  | nil => exact ⟨s, rfl, rfl, rfl, by simp [h1], by simp [h2]⟩
  | append_singleton l a ih =>
    obtain ⟨sn, hrun, hpn, hrho, hP, hQ⟩ := ih (fun p hp => hsteps p (List.mem_append_left _ hp))
    obtain ⟨hF, hm⟩ := hsteps a (List.mem_append_right _ (List.mem_singleton_self a))
    have hFn : computeForce sn a.1 = .ok a.2 := by
      rw [computeForce_congr sn s a.1 hpn hrho]
      exact hF
    have hc := correct_of_force E sn a.1 a.2 hFn hm
    have hinv : sn.FOldPtr = none → sn.FOldOldPtr = none := by
      intro hnone
      rw [hP] at hnone
      rw [hQ, List.getLast?_eq_none_iff.mp hnone]
      rfl
    obtain ⟨e1, e2⟩ := estimate_history sn.FOldPtr sn.FOldOldPtr a.2 a.1.deltaT hinv
    refine ⟨correctMaster E sn a.1 a.2, ?_, hpn, hrho, ?_, ?_⟩
    · rw [List.map_append, correctSeq_append E _ _ s sn hrun]
      simp only [List.map_cons, List.map_nil, correctSeq, hc]
    · show (estimate sn.FOldPtr sn.FOldOldPtr a.2 a.1.deltaT).FOldPtr = _
      rw [e1]
      simp
    · show (estimate sn.FOldPtr sn.FOldOldPtr a.2 a.1.deltaT).FOldOldPtr = _
      rw [e2, hP]
      simp

/-- C19: for every sequence of forces `F_1, ..., F_n` that `correct()` computes
and processes on the master from a fresh estimator, the calls return and
afterwards `FOldPtr_` is the last force of the sequence and `FOldOldPtr_` the
last but one, each absent when the sequence is too short: after no call both
are absent, after one call `FOldPtr_ = F_1` and `FOldOldPtr_` is absent, after
two or more `FOldPtr_ = F_n` and `FOldOldPtr_ = F_(n-1)`; `FOldOldPtr_` is never
present while `FOldPtr_` is absent. -/
theorem correct_history (E : Lib K) (s : Curle K) (h1 : s.FOldPtr = none)
    (h2 : s.FOldOldPtr = none) (steps : List (World K × Vec K))
    (hsteps : ∀ p ∈ steps, computeForce s p.1 = .ok p.2 ∧ (p.1.master || !p.1.parRun) = true) :
    ∃ sn : Curle K, correctSeq E s (steps.map Prod.fst) = .ok sn ∧
      sn.FOldPtr = (steps.map Prod.snd).getLast? ∧
      sn.FOldOldPtr = (steps.map Prod.snd).dropLast.getLast? ∧
      (steps = [] → sn.FOldPtr = none ∧ sn.FOldOldPtr = none) ∧
      (∀ w F, steps = [(w, F)] → sn.FOldPtr = some F ∧ sn.FOldOldPtr = none) ∧
      (∀ init w1 F1 w2 F2, steps = init ++ [(w1, F1), (w2, F2)] →
        sn.FOldPtr = some F2 ∧ sn.FOldOldPtr = some F1) ∧
      (sn.FOldPtr = none → sn.FOldOldPtr = none) := by
  obtain ⟨sn, hrun, _, _, hP, hQ⟩ := correctSeq_history E s h1 h2 steps hsteps
  refine ⟨sn, hrun, hP, hQ, ?_, ?_, ?_, ?_⟩
  · intro h
    subst h
    exact ⟨hP, hQ⟩
  · intro w F h
    subst h
    exact ⟨hP, hQ⟩
  · intro init w1 F1 w2 F2 h
    subst h
    refine ⟨by rw [hP]; simp, ?_⟩
    rw [hQ]
    have : init ++ [(w1, F1), (w2, F2)] = (init ++ [(w1, F1)]) ++ [(w2, F2)] := by simp
    rw [this, List.map_append, List.map_cons, List.map_nil, List.dropLast_concat]
    simp
  · intro hnone
    rw [hP] at hnone
    rw [hQ, List.getLast?_eq_none_iff.mp hnone]
    rfl

/-- Witness of C19: the forces `(1,0,0)`, `(2,0,0)`, `(3,0,0)` on the sample mesh. -/
theorem correct_history_witness :
    ∃ sn : Curle ℚ,
      correctSeq sampleLib sampleCurle [sampleWorldAt 1, sampleWorldAt 2, sampleWorldAt 3]
        = .ok sn ∧
      sn.FOldPtr = some ⟨3, 0, 0⟩ ∧ sn.FOldOldPtr = some ⟨2, 0, 0⟩ := by
  obtain ⟨sn, h1, _, _, _, _, h6, _⟩ :=
    correct_history sampleLib sampleCurle rfl rfl
      [(sampleWorldAt 1, ⟨1, 0, 0⟩), (sampleWorldAt 2, ⟨2, 0, 0⟩), (sampleWorldAt 3, ⟨3, 0, 0⟩)]
      (by
        intro p hp
        simp only [List.mem_cons, List.mem_singleton, List.not_mem_nil, or_false] at hp
        rcases hp with h | h | h <;> subst h <;>
          exact ⟨computeForce_sampleAt _ _ rfl, rfl⟩)
  obtain ⟨h7, h8⟩ := h6 [(sampleWorldAt 1, ⟨1, 0, 0⟩)] (sampleWorldAt 2) ⟨2, 0, 0⟩
    (sampleWorldAt 3) ⟨3, 0, 0⟩ rfl
  exact ⟨sn, h1, h7, h8⟩

/-! ## Accuracy of the estimator -/

/-- The pointers after the first `k` calls of a run whose call number `i`
computes the force `force i`. -/
theorem correctSeq_history_range (E : Lib K) (s : Curle K) (h1 : s.FOldPtr = none)
    (h2 : s.FOldOldPtr = none) (world : Nat → World K) (force : Nat → Vec K)
    (hw : ∀ i, computeForce s (world i) = .ok (force i) ∧
      ((world i).master || !(world i).parRun) = true) (k : Nat) :
    ∃ sk : Curle K, correctSeq E s ((List.range k).map world) = .ok sk ∧
      sk.FOldPtr = ((List.range k).map force).getLast? ∧
      sk.FOldOldPtr = ((List.range k).map force).dropLast.getLast? := by
  obtain ⟨sk, hrun, _, _, hP, hQ⟩ := correctSeq_history E s h1 h2
    ((List.range k).map (fun i => (world i, force i)))
    (by
      intro p hp
      obtain ⟨i, _, hi⟩ := List.mem_map.mp hp
      subst hi
      exact hw i)
  refine ⟨sk, ?_, ?_, ?_⟩
  · simpa [List.map_map, Function.comp_def] using hrun
  · simpa [List.map_map, Function.comp_def] using hP
  · simpa [List.map_map, Function.comp_def] using hQ

/-- C14: for a force exactly linear in time, `F_k = A + (k dt) B` with `dt > 0`,
computed at consecutive calls of `correct()` with time step `dt` from a fresh
estimator, the first-order rate of the second call (state `OneSample`) and the
second-order rate of every later call (state `Steady`) are both the slope `B`,
in exact arithmetic. -/
theorem correct_linear_series (E : Lib K) (s : Curle K) (h1 : s.FOldPtr = none)
    (h2 : s.FOldOldPtr = none) (A B : Vec K) (dt : K) (hdt : 0 < dt) (world : Nat → World K)
    (hw : ∀ i, computeForce s (world i) = .ok (A + ((i : K) * dt) * B) ∧
      ((world i).master || !(world i).parRun) = true)
    (hstep : ∀ i, (world i).deltaT = dt) :
    ∀ k, 1 ≤ k → ∃ sk : Curle K, correctSeq E s ((List.range k).map world) = .ok sk ∧
      estimatorState sk.FOldPtr sk.FOldOldPtr = (if k = 1 then .OneSample else .Steady) ∧
      (estimate sk.FOldPtr sk.FOldOldPtr (A + ((k : K) * dt) * B) (world k).deltaT).dFdT = B := by
  intro k hk
  have hne : dt ≠ 0 := ne_of_gt hdt
  obtain ⟨sk, hrun, hP, hQ⟩ := correctSeq_history_range E s h1 h2 world
    (fun i => A + ((i : K) * dt) * B) hw k
  refine ⟨sk, hrun, ?_⟩
  match k, hk with
  | 1, _ =>
    have hP1 : sk.FOldPtr = some (A + (((0 : Nat) : K) * dt) * B) := by
      rw [hP]
      simp [List.range_succ]
    have hQ1 : sk.FOldOldPtr = none := by
      rw [hQ]
      simp [List.range_succ]
    rw [hP1, hQ1, hstep]
    refine ⟨by simp [estimatorState], ?_⟩
    simp only [estimate]
    ext <;> simp <;> field_simp
  | i + 2, _ =>
    have hP1 : sk.FOldPtr = some (A + (((i + 1 : Nat) : K) * dt) * B) := by
      rw [hP]
      simp [List.range_succ]
    have hQ1 : sk.FOldOldPtr = some (A + ((i : K) * dt) * B) := by
      rw [hQ]
      simp [List.range_succ]
    rw [hP1, hQ1, hstep]
    refine ⟨by simp [estimatorState], ?_⟩
    simp only [estimate]
    ext <;> simp <;> field_simp <;> ring

/-- Witness of C14: the force `(i, 0, 0)` at call `i` on the sample mesh, with
step 1 and slope `(1, 0, 0)`; the third call. -/
theorem correct_linear_series_witness :
    ∃ sk : Curle ℚ,
      correctSeq sampleLib sampleCurle ((List.range 2).map (fun i => sampleWorldAt i)) = .ok sk ∧
      estimatorState sk.FOldPtr sk.FOldOldPtr = (if 2 = 1 then .OneSample else .Steady) ∧
      (estimate sk.FOldPtr sk.FOldOldPtr
        ((⟨0, 0, 0⟩ : Vec ℚ) + ((((2 : Nat) : ℚ) * 1) * (⟨1, 0, 0⟩ : Vec ℚ) : Vec ℚ))
        (sampleWorldAt (2 : Nat)).deltaT).dFdT = ⟨1, 0, 0⟩ :=
  correct_linear_series sampleLib sampleCurle rfl rfl ⟨0, 0, 0⟩ ⟨1, 0, 0⟩ 1 (by norm_num)
    (fun i => sampleWorldAt i)
    (fun i => ⟨by
      rw [computeForce_sampleAt _ _ rfl]
      congr 1
      ext <;> simp, rfl⟩)
    (fun _ => rfl) 2 (by norm_num)

theorem magSqr_pos (C : Vec K) (hC : C ≠ ⟨0, 0, 0⟩) : 0 < C.magSqr := by
  have h : C.x ≠ 0 ∨ C.y ≠ 0 ∨ C.z ≠ 0 := by
    by_contra hcon
    simp only [not_or, not_not] at hcon
    exact hC (Vec.ext hcon.1 hcon.2.1 hcon.2.2)
  have hx := mul_self_nonneg C.x
  have hy := mul_self_nonneg C.y
  have hz := mul_self_nonneg C.z
  simp only [Vec.magSqr]
  rcases h with h | h | h
  · have := mul_self_pos.mpr h
    linarith
  · have := mul_self_pos.mpr h
    linarith
  · have := mul_self_pos.mpr h
    linarith

/-- C15: for every quadratic force series `F(t) = A + B t + C t^2` with `C ≠ 0`,
sampled at `t - 2 dt`, `t - dt`, `t` with `dt > 0`, the second-order rate of
`correct()` (state `Steady`) is the analytic derivative `B + 2 C t`, the
first-order rate from the same samples (state `OneSample`) misses it by
`-dt C`, of squared magnitude `dt^2 |C|^2`, and so the second-order rate is
strictly closer to the derivative. -/
theorem estimate_quadratic (A B C : Vec K) (t dt : K) (hdt : 0 < dt) (hC : C ≠ ⟨0, 0, 0⟩) :
    (estimate (some (quadraticForce A B C (t - dt))) (some (quadraticForce A B C (t - 2 * dt)))
        (quadraticForce A B C t) dt).dFdT = B + (2 * t) * C ∧
    (estimate (some (quadraticForce A B C (t - dt))) none (quadraticForce A B C t) dt).dFdT
        - (B + (2 * t) * C) = -(dt * C) ∧
    ((estimate (some (quadraticForce A B C (t - dt))) none (quadraticForce A B C t) dt).dFdT
        - (B + (2 * t) * C)).magSqr = dt ^ 2 * C.magSqr ∧
    ((estimate (some (quadraticForce A B C (t - dt))) (some (quadraticForce A B C (t - 2 * dt)))
        (quadraticForce A B C t) dt).dFdT - (B + (2 * t) * C)).magSqr <
      ((estimate (some (quadraticForce A B C (t - dt))) none (quadraticForce A B C t) dt).dFdT
        - (B + (2 * t) * C)).magSqr := by
  have hne : dt ≠ 0 := ne_of_gt hdt
  have h2 : (estimate (some (quadraticForce A B C (t - dt)))
      (some (quadraticForce A B C (t - 2 * dt))) (quadraticForce A B C t) dt).dFdT =
      B + (2 * t) * C := by
    simp only [estimate, quadraticForce]
    ext <;> simp <;> field_simp <;> ring
  have h1 : (estimate (some (quadraticForce A B C (t - dt))) none
      (quadraticForce A B C t) dt).dFdT - (B + (2 * t) * C) = -(dt * C) := by
    simp only [estimate, quadraticForce]
    ext <;> simp <;> field_simp <;> ring
  have hm : (-(dt * C)).magSqr = dt ^ 2 * C.magSqr := by
    simp only [Vec.magSqr, Vec.neg_x, Vec.neg_y, Vec.neg_z, Vec.smul_x, Vec.smul_y, Vec.smul_z]
    ring
  refine ⟨h2, h1, by rw [h1, hm], ?_⟩
  rw [h1, hm, h2]
  have h0 : (B + (2 * t) * C - (B + (2 * t) * C)).magSqr = 0 := by
    simp [Vec.magSqr]
  rw [h0]
  exact mul_pos (pow_pos hdt 2) (magSqr_pos C hC)

/-- Witness of C15: `F(t) = (t^2, 0, 0)` at `t = 2` with `dt = 1`. -/
theorem estimate_quadratic_witness :
    (estimate (some (quadraticForce (⟨0, 0, 0⟩ : Vec ℚ) ⟨0, 0, 0⟩ ⟨1, 0, 0⟩ (2 - 1)))
        (some (quadraticForce ⟨0, 0, 0⟩ ⟨0, 0, 0⟩ ⟨1, 0, 0⟩ (2 - 2 * 1)))
        (quadraticForce ⟨0, 0, 0⟩ ⟨0, 0, 0⟩ ⟨1, 0, 0⟩ 2) 1).dFdT =
      ⟨0, 0, 0⟩ + ((2 : ℚ) * 2) * (⟨1, 0, 0⟩ : Vec ℚ) :=
  (estimate_quadratic (⟨0, 0, 0⟩ : Vec ℚ) ⟨0, 0, 0⟩ ⟨1, 0, 0⟩ 2 1 (by norm_num)
    (by simp)).1

/-! ## Values of the dipole formula -/

/-- The pressure at an observer placed along a unit force at distance `r`, with
zero force rate and no reference distance: `1 / (4 pi r^2)`. -/
theorem observedPressure_along (E : Lib K) (c position F : Vec K) (c0 dRef r : K)
    (hl : position - c = r * F) (hF : Vec.dot F F = 1) (hmag : mag E (position - c) = r)
    (hr : r ≠ 0) (hc0 : c0 ≠ 0) (hd : dRef ≤ 0) :
    observedPressure E c c0 dRef position F ⟨0, 0, 0⟩ = 1 / (4 * E.pi * r ^ 2) := by
  rw [observedPressure_eq]
  simp only [dipolePressure]
  rw [hmag, if_pos hd, hl]
  have hdot : Vec.dot (r * F) ((⟨0, 0, 0⟩ : Vec K) + c0 * F / r) = c0 := by
    simp only [Vec.dot, Vec.smul_x, Vec.smul_y, Vec.smul_z, Vec.add_x, Vec.add_y, Vec.add_z,
      Vec.div_x, Vec.div_y, Vec.div_z] at hF ⊢
    field_simp
    linear_combination (c0 * r) * hF
  rw [hdot]
  by_cases hpi : E.pi = 0
  · simp [hpi]
  · field_simp
    ring

/-- The Euclidean length of a vector along the first axis, over the reals. -/
theorem mag_real_axis (f : SoundObserver ℝ → ℝ → List (ℝ × ℝ × ℝ)) (x : ℝ) (hx : 0 ≤ x) :
    mag (⟨Real.pi, Real.sqrt, f⟩ : Lib ℝ) ⟨x, 0, 0⟩ = x := by
  simp only [mag, Vec.magSqr, mul_zero, add_zero]
  exact Real.sqrt_mul_self hx

/-- C12 as amended: for `F = (1,0,0)`, zero force rate, `c0 = 340`, no reference
distance and an observer at `(10,0,0)` relative to the source reference, at
distance 10, the pressure computed in `correct()` is `340 / (4 pi 34000)`,
that is `1 / (400 pi)`. -/
theorem observedPressure_hand_case (E : Lib K) (c : Vec K) (dRef : K) (hd : dRef ≤ 0)
    (hmag : mag E ⟨10, 0, 0⟩ = 10) :
    observedPressure E c 340 dRef (c + ⟨10, 0, 0⟩) ⟨1, 0, 0⟩ ⟨0, 0, 0⟩ =
      340 / (4 * E.pi * 34000) ∧
    observedPressure E c 340 dRef (c + ⟨10, 0, 0⟩) ⟨1, 0, 0⟩ ⟨0, 0, 0⟩ =
      1 / (400 * E.pi) := by
  have hl : c + (⟨10, 0, 0⟩ : Vec K) - c = (10 : K) * (⟨1, 0, 0⟩ : Vec K) := by
    ext <;> simp
  have hl2 : c + (⟨10, 0, 0⟩ : Vec K) - c = ⟨10, 0, 0⟩ := by
    ext <;> simp
  have h := observedPressure_along E c (c + ⟨10, 0, 0⟩) ⟨1, 0, 0⟩ 340 dRef 10 hl
    (by simp [Vec.dot]) (by rw [hl2]; exact hmag) (by norm_num) (by norm_num) hd
  rw [h]
  constructor
  · by_cases hpi : E.pi = 0
    · simp [hpi]
    · field_simp
      ring
  · by_cases hpi : E.pi = 0
    · simp [hpi]
    · field_simp
      ring

/-- Witness of C12 as amended, over the reals with the number pi and the real
square root. -/
theorem observedPressure_hand_case_witness :
    observedPressure (⟨Real.pi, Real.sqrt, fun _ _ => []⟩ : Lib ℝ) ⟨0, 0, 0⟩ 340 (-1)
      (⟨0, 0, 0⟩ + ⟨10, 0, 0⟩) ⟨1, 0, 0⟩ ⟨0, 0, 0⟩ = 1 / (400 * Real.pi) :=
  (observedPressure_hand_case (⟨Real.pi, Real.sqrt, fun _ _ => []⟩ : Lib ℝ) ⟨0, 0, 0⟩ (-1)
    (by norm_num) (mag_real_axis _ 10 (by norm_num))).2

/-- C12 as stated fails: over the reals, with the number pi, the pressure of
the hand-computed case is not `34 / (4 pi 34000)`. -/
theorem observedPressure_hand_case_counterexample :
    observedPressure (⟨Real.pi, Real.sqrt, fun _ _ => []⟩ : Lib ℝ) ⟨0, 0, 0⟩ 340 (-1)
      (⟨0, 0, 0⟩ + ⟨10, 0, 0⟩) ⟨1, 0, 0⟩ ⟨0, 0, 0⟩ ≠ 34 / (4 * Real.pi * 34000) := by
  have hl : (⟨0, 0, 0⟩ : Vec ℝ) + ⟨10, 0, 0⟩ - ⟨0, 0, 0⟩ = (10 : ℝ) * (⟨1, 0, 0⟩ : Vec ℝ) := by
    ext <;> simp
  have hl2 : (⟨0, 0, 0⟩ : Vec ℝ) + ⟨10, 0, 0⟩ - ⟨0, 0, 0⟩ = ⟨10, 0, 0⟩ := by
    ext <;> simp
  have hval := observedPressure_along (⟨Real.pi, Real.sqrt, fun _ _ => []⟩ : Lib ℝ) ⟨0, 0, 0⟩
    (⟨0, 0, 0⟩ + ⟨10, 0, 0⟩) ⟨1, 0, 0⟩ 340 (-1) 10 hl
    (by simp [Vec.dot]) (by rw [hl2]; exact mag_real_axis _ 10 (by norm_num)) (by norm_num)
    (by norm_num) (by norm_num)
  rw [hval]
  have hpi : Real.pi ≠ 0 := ne_of_gt Real.pi_pos
  intro h
  field_simp at h
  have hzero : Real.pi = 0 := by linarith
  exact hpi hzero

/-- C13 as amended: for a unit force `F`, zero force rate, any `c0 > 0`, no
reference distance and an observer at distance `r > 0` from the source
reference along the direction of `F`, the pressure computed in `correct()` is
`1 / (4 pi r^2)`; it scales as `1 / r^2`: for all `r1, r2 > 0`,
`pressure(r1) * r1^2 = pressure(r2) * r2^2`. -/
theorem observedPressure_inverse_square (E : Lib K) (c F : Vec K) (c0 dRef r1 r2 : K)
    (hF : Vec.dot F F = 1) (hc0 : 0 < c0) (hd : dRef ≤ 0) (hr1 : 0 < r1) (hr2 : 0 < r2)
    (hm1 : mag E (c + r1 * F - c) = r1) (hm2 : mag E (c + r2 * F - c) = r2) :
    observedPressure E c c0 dRef (c + r1 * F) F ⟨0, 0, 0⟩ = 1 / (4 * E.pi * r1 ^ 2) ∧
    observedPressure E c c0 dRef (c + r2 * F) F ⟨0, 0, 0⟩ = 1 / (4 * E.pi * r2 ^ 2) ∧
    observedPressure E c c0 dRef (c + r1 * F) F ⟨0, 0, 0⟩ * r1 ^ 2 =
      observedPressure E c c0 dRef (c + r2 * F) F ⟨0, 0, 0⟩ * r2 ^ 2 := by
  have hl : ∀ r : K, c + r * F - c = r * F := by
    intro r
    ext <;> simp
  have h1 := observedPressure_along E c (c + r1 * F) F c0 dRef r1 (hl r1) hF hm1
    (ne_of_gt hr1) (ne_of_gt hc0) hd
  have h2 := observedPressure_along E c (c + r2 * F) F c0 dRef r2 (hl r2) hF hm2
    (ne_of_gt hr2) (ne_of_gt hc0) hd
  refine ⟨h1, h2, ?_⟩
  rw [h1, h2]
  have hn1 : r1 ≠ 0 := ne_of_gt hr1
  have hn2 : r2 ≠ 0 := ne_of_gt hr2
  by_cases hpi : E.pi = 0
  · simp [hpi]
  · field_simp
    ring

/-- Witness of C13 as amended, over the reals: the force `(1,0,0)` and the
distances 1 and 2. -/
theorem observedPressure_inverse_square_witness :
    observedPressure (⟨Real.pi, Real.sqrt, fun _ _ => []⟩ : Lib ℝ) ⟨0, 0, 0⟩ 340 (-1)
        (⟨0, 0, 0⟩ + (1 : ℝ) * (⟨1, 0, 0⟩ : Vec ℝ)) ⟨1, 0, 0⟩ ⟨0, 0, 0⟩ * 1 ^ 2 =
      observedPressure (⟨Real.pi, Real.sqrt, fun _ _ => []⟩ : Lib ℝ) ⟨0, 0, 0⟩ 340 (-1)
        (⟨0, 0, 0⟩ + (2 : ℝ) * (⟨1, 0, 0⟩ : Vec ℝ)) ⟨1, 0, 0⟩ ⟨0, 0, 0⟩ * 2 ^ 2 :=
  (observedPressure_inverse_square (⟨Real.pi, Real.sqrt, fun _ _ => []⟩ : Lib ℝ) ⟨0, 0, 0⟩
    ⟨1, 0, 0⟩ 340 (-1) 1 2 (by simp [Vec.dot]) (by norm_num) (by norm_num) (by norm_num)
    (by norm_num)
    (by
      have h : (⟨0, 0, 0⟩ : Vec ℝ) + (1 : ℝ) * (⟨1, 0, 0⟩ : Vec ℝ) - ⟨0, 0, 0⟩ = ⟨1, 0, 0⟩ := by
        ext <;> simp
      rw [h]
      exact mag_real_axis _ 1 (by norm_num))
    (by
      have h : (⟨0, 0, 0⟩ : Vec ℝ) + (2 : ℝ) * (⟨1, 0, 0⟩ : Vec ℝ) - ⟨0, 0, 0⟩ = ⟨2, 0, 0⟩ := by
        ext <;> simp
      rw [h]
      exact mag_real_axis _ 2 (by norm_num))).2.2

/-- C13 as stated fails: over the reals, for the force `(1,0,0)` and observers
along it at the distances 1 and 2, `pressure(1) * 1` differs from
`pressure(2) * 2`. -/
theorem observedPressure_inverse_square_counterexample :
    observedPressure (⟨Real.pi, Real.sqrt, fun _ _ => []⟩ : Lib ℝ) ⟨0, 0, 0⟩ 340 (-1)
        (⟨0, 0, 0⟩ + (1 : ℝ) * (⟨1, 0, 0⟩ : Vec ℝ)) ⟨1, 0, 0⟩ ⟨0, 0, 0⟩ * 1 ≠
      observedPressure (⟨Real.pi, Real.sqrt, fun _ _ => []⟩ : Lib ℝ) ⟨0, 0, 0⟩ 340 (-1)
        (⟨0, 0, 0⟩ + (2 : ℝ) * (⟨1, 0, 0⟩ : Vec ℝ)) ⟨1, 0, 0⟩ ⟨0, 0, 0⟩ * 2 := by
  have hl1 : (⟨0, 0, 0⟩ : Vec ℝ) + (1 : ℝ) * (⟨1, 0, 0⟩ : Vec ℝ) - ⟨0, 0, 0⟩ =
      (1 : ℝ) * (⟨1, 0, 0⟩ : Vec ℝ) := by
    ext <;> simp
  have hl2 : (⟨0, 0, 0⟩ : Vec ℝ) + (2 : ℝ) * (⟨1, 0, 0⟩ : Vec ℝ) - ⟨0, 0, 0⟩ =
      (2 : ℝ) * (⟨1, 0, 0⟩ : Vec ℝ) := by
    ext <;> simp
  have hv1 : (1 : ℝ) * (⟨1, 0, 0⟩ : Vec ℝ) = ⟨1, 0, 0⟩ := by
    ext <;> simp
  have hv2 : (2 : ℝ) * (⟨1, 0, 0⟩ : Vec ℝ) = ⟨2, 0, 0⟩ := by
    ext <;> simp
  have h1 := observedPressure_along (⟨Real.pi, Real.sqrt, fun _ _ => []⟩ : Lib ℝ) ⟨0, 0, 0⟩
    (⟨0, 0, 0⟩ + (1 : ℝ) * (⟨1, 0, 0⟩ : Vec ℝ)) ⟨1, 0, 0⟩ 340 (-1) 1 hl1
    (by simp [Vec.dot]) (by rw [hl1, hv1]; exact mag_real_axis _ 1 (by norm_num)) (by norm_num)
    (by norm_num) (by norm_num)
  have h2 := observedPressure_along (⟨Real.pi, Real.sqrt, fun _ _ => []⟩ : Lib ℝ) ⟨0, 0, 0⟩
    (⟨0, 0, 0⟩ + (2 : ℝ) * (⟨1, 0, 0⟩ : Vec ℝ)) ⟨1, 0, 0⟩ 340 (-1) 2 hl2
    (by simp [Vec.dot]) (by rw [hl2, hv2]; exact mag_real_axis _ 2 (by norm_num)) (by norm_num)
    (by norm_num) (by norm_num)
  rw [h1, h2]
  have hpi : Real.pi ≠ 0 := ne_of_gt Real.pi_pos
  intro h
  field_simp at h
  have hzero : Real.pi = 0 := by linarith
  exact hpi hzero

/-! ## Observer at the source reference -/

/-- The observers after the master part of `correct()`: one more sample each. -/
theorem correctMaster_extends (E : Lib K) (s : Curle K) (w : World K) (F : Vec K) :
    List.Forall₂ (Extends 1) s.observers (correctMaster E s w F).observers :=
  forall₂_extends_appended s.observers
    (fun obs => observedPressure E s.c s.c0 s.dRef obs.position F
      (estimate s.FOldPtr s.FOldOldPtr F w.deltaT).dFdT) w.time

theorem read_inactive (s : Curle K) (h : s.active = false) (dict : Dict K) (w : World K) :
    read s dict w = .ok s := by
  simp [read, h]

theorem execute_inactive (E : Lib K) (s : Curle K) (h : s.active = false) (w : World K) :
    execute E s w = .ok (s, .inactive) := by
  simp [execute, h]

theorem calls_inactive (E : Lib K) (s : Curle K) (h : s.active = false) (cs : List (Call K)) :
    calls E s cs = .ok s := by
  induction cs with
  | nil => rfl
  | cons c rest ih =>
    cases c with
    | read dict w => simp only [calls, call, read_inactive s h, ih]
    | execute w => simp only [calls, call, execute_inactive E s h, ih]

/-- C16: if the monitor is inactive (`active_` false after a construction on a
registry that is not an `fvMesh`), every later call of `read()` and of
`execute()` returns and leaves the whole object as it is, counter,
configuration, force history, source reference and observers included, so
that `active_` stays false; the constructor on such a registry returns the
initial members with `active_` false. -/
theorem inactive_noop (E : Lib K) (s : Curle K) (h : s.active = false) :
    (∀ (dict : Dict K) (w : World K), read s dict w = .ok s) ∧
    (∀ w : World K, execute E s w = .ok (s, .inactive)) ∧
    (∀ cs : List (Call K), calls E s cs = .ok s) ∧
    (∀ (name : String) (dict : Dict K) (w : World K),
      construct name false dict w = .ok (initial name false) ∧
      (initial name false : Curle K).active = false) :=
  ⟨read_inactive s h, execute_inactive E s h, calls_inactive E s h,
    fun name dict w => ⟨read_inactive (initial name false) rfl dict w, rfl⟩⟩

/-- Witness of C16: the monitor constructed on a registry that is not an
`fvMesh`, then configured and executed. -/
theorem inactive_noop_witness :
    calls sampleLib (initial "curle" false)
      [.read centreDict sampleWorld, .execute sampleWorld, .execute sampleWorld]
      = .ok (initial "curle" false) :=
  (inactive_noop sampleLib (initial "curle" false) rfl).2.2.1 _

/-! ## Force rate under a probe frequency -/

/-- What one call of `execute()` on the master does to the force history of an
active monitor whose patches resolve: an accepted call stores the computed
force and moves the old one back, any other call leaves both pointers. -/
theorem execute_track (E : Lib K) (s : Curle K) (w : World K) (hact : s.active = true)
    (hN : s.probeFreq ≠ 0) (hres : ∃ F, computeForce s w = .ok F)
    (hm : (w.master || !w.parRun) = true) :
    ∃ (s1 : Curle K) (o : Outcome), execute E s w = .ok (s1, o) ∧ SameSetup s s1 ∧
      s1.probeI = (if s.probeFreq ∣ s.probeI + 1 then 0 else s.probeI + 1) ∧
      ((s.probeFreq ∣ s.probeI + 1 ∧ s.timeStart ≤ w.time ∧ w.time ≤ s.timeEnd) →
        o = .propagated ∧ ∃ F, computeForce s w = .ok F ∧
          s1.FOldPtr = (estimate s.FOldPtr s.FOldOldPtr F w.deltaT).FOldPtr ∧
          s1.FOldOldPtr = (estimate s.FOldPtr s.FOldOldPtr F w.deltaT).FOldOldPtr) ∧
      (¬ (s.probeFreq ∣ s.probeI + 1 ∧ s.timeStart ≤ w.time ∧ w.time ≤ s.timeEnd) →
        o ≠ .propagated ∧ s1.FOldPtr = s.FOldPtr ∧ s1.FOldOldPtr = s.FOldOldPtr) := by
  obtain ⟨F, hF⟩ := hres
  by_cases hd : s.probeFreq ∣ s.probeI + 1
  · by_cases ht : s.timeStart ≤ w.time ∧ w.time ≤ s.timeEnd
    · obtain ⟨f, _, hex⟩ := execute_propagated_master E s w F hact hN hd ht hF hm
      refine ⟨_, _, hex, ?_, ?_, ?_, ?_⟩
      · rw [writeFft_eq]
        exact sameSetup_makeFile s w 0
      · rw [writeFft_eq, if_pos hd]
        rfl
      · intro _
        refine ⟨rfl, F, hF, ?_, ?_⟩
        · rw [writeFft_eq]
          show (correctMaster E { makeFile s w with probeI := 0 } w F).FOldPtr = _
          rw [makeFile_eq]
          rfl
        · rw [writeFft_eq]
          show (correctMaster E { makeFile s w with probeI := 0 } w F).FOldOldPtr = _
          rw [makeFile_eq]
          rfl
      · intro h
        exact absurd ⟨hd, ht⟩ h
    · have ht2 : w.time < s.timeStart ∨ s.timeEnd < w.time := by
        by_contra hcon
        rw [not_or, not_lt, not_lt] at hcon
        exact ht hcon
      refine ⟨_, _, execute_skippedTime E s w hact hN hd ht2, sameSetup_makeFile s w 0, ?_, ?_,
        ?_⟩
      · rw [if_pos hd]
      · intro h
        exact absurd h.2 ht
      · intro _
        refine ⟨by simp, ?_⟩
        rw [makeFile_eq]
        exact ⟨rfl, rfl⟩
  · refine ⟨_, _, execute_skippedCounter E s w hact hN hd, sameSetup_makeFile s w _, ?_, ?_, ?_⟩
    · rw [if_neg hd, makeFile_eq]
    · intro h
      exact absurd h.1 hd
    · intro _
      refine ⟨by simp, ?_⟩
      rw [makeFile_eq]
      exact ⟨rfl, rfl⟩

/-- One call of `execute()` at time `t` inside the window on a monitor set up as
the sample monitor with probe frequency 2. -/
theorem execute_track_sample2 (s : Curle ℚ) (hset : SameSetup sampleCurle2 s) (t : ℚ)
    (ht : 0 ≤ t ∧ t ≤ 10) :
    ∃ (s1 : Curle ℚ) (o : Outcome), execute sampleLib s (sampleWorldAt t) = .ok (s1, o) ∧
      SameSetup sampleCurle2 s1 ∧
      s1.probeI = (if (2 : Int) ∣ s.probeI + 1 then 0 else s.probeI + 1) ∧
      ((2 : Int) ∣ s.probeI + 1 → o = .propagated ∧
        s1.FOldPtr = (estimate s.FOldPtr s.FOldOldPtr ⟨t, 0, 0⟩ 1).FOldPtr ∧
        s1.FOldOldPtr = (estimate s.FOldPtr s.FOldOldPtr ⟨t, 0, 0⟩ 1).FOldOldPtr) ∧
      (¬ (2 : Int) ∣ s.probeI + 1 → s1.FOldPtr = s.FOldPtr ∧ s1.FOldOldPtr = s.FOldOldPtr) := by
  have hact : s.active = true := hset.2.1
  have hfreq : s.probeFreq = 2 := hset.2.2.1
  have hnames : s.patchNames = ["wall"] := hset.2.2.2.1
  have hts : s.timeStart = 0 := hset.2.2.2.2.1
  have hte : s.timeEnd = 10 := hset.2.2.2.2.2.1
  have hF := computeForce_sampleAt s t hnames
  obtain ⟨s1, o, hex, hset1, hp, hacc, hskip⟩ :=
    execute_track sampleLib s (sampleWorldAt t) hact (by rw [hfreq]; decide) ⟨_, hF⟩ rfl
  rw [hfreq] at hp hacc hskip
  rw [hts, hte] at hacc hskip
  refine ⟨s1, o, hex, sameSetup_trans hset hset1, hp, ?_, ?_⟩
  · intro hd
    obtain ⟨ho, G, hG, h1, h2⟩ := hacc ⟨hd, ht⟩
    have hGF : G = ⟨t, 0, 0⟩ := by
      rw [hF] at hG
      exact (Except.ok.inj hG).symm
    subst hGF
    exact ⟨ho, h1, h2⟩
  · intro hd
    exact (hskip (fun h => hd h.1)).2

/-- C18, the code at probe frequency 2: with step `dt = 1` and the force
`F(t) = (t, 0, 0)`, of slope `(1, 0, 0)`, `execute()` called at the times 1, 2,
3, 4 accepts the calls 2 and 4; at the second accepted step the stored force is
`F(2) = (2,0,0)`, the new one `F(4) = (4,0,0)`, and the rate that `correct()`
forms, dividing by `dt`, is `(2, 0, 0)`: twice the slope. -/
theorem execute_rate_probeFreq_two :
    ∃ s3 : Curle ℚ,
      run sampleLib sampleCurle2 [sampleWorldAt 1, sampleWorldAt 2, sampleWorldAt 3] = .ok s3 ∧
      s3.FOldPtr = some ⟨2, 0, 0⟩ ∧ s3.FOldOldPtr = none ∧
      (∃ s4 : Curle ℚ, execute sampleLib s3 (sampleWorldAt 4) = .ok (s4, .propagated)) ∧
      computeForce s3 (sampleWorldAt 4) = .ok ⟨4, 0, 0⟩ ∧
      (sampleWorldAt 4).deltaT = 1 ∧
      ((s3.probeFreq : ℚ) * (sampleWorldAt 4).deltaT) = 2 ∧
      (estimate s3.FOldPtr s3.FOldOldPtr ⟨4, 0, 0⟩ (sampleWorldAt 4).deltaT).dFdT = ⟨2, 0, 0⟩ := by
  obtain ⟨s1, o1, hex1, hset1, hp1, _, hs1⟩ :=
    execute_track_sample2 sampleCurle2 (sameSetup_refl _) 1 (by norm_num)
  have hpI1 : s1.probeI = 1 := by
    rw [hp1]
    decide
  obtain ⟨hP1, hQ1⟩ := hs1 (by decide)
  obtain ⟨s2, o2, hex2, hset2, hp2, ha2, _⟩ := execute_track_sample2 s1 hset1 2 (by norm_num)
  rw [hpI1] at hp2 ha2
  have hpI2 : s2.probeI = 0 := by
    rw [hp2]
    decide
  obtain ⟨_, hP2, hQ2⟩ := ha2 (by decide)
  rw [hP1, hQ1] at hP2 hQ2
  obtain ⟨s3, o3, hex3, hset3, hp3, _, hs3⟩ := execute_track_sample2 s2 hset2 3 (by norm_num)
  rw [hpI2] at hp3 hs3
  have hpI3 : s3.probeI = 1 := by
    rw [hp3]
    decide
  obtain ⟨hP3, hQ3⟩ := hs3 (by decide)
  rw [hP2] at hP3
  rw [hQ2] at hQ3
  obtain ⟨s4, o4, hex4, _, _, ha4, _⟩ := execute_track_sample2 s3 hset3 4 (by norm_num)
  rw [hpI3] at ha4
  obtain ⟨ho4, _, _⟩ := ha4 (by decide)
  rw [ho4] at hex4
  have hfreq3 : s3.probeFreq = 2 := hset3.2.2.1
  refine ⟨s3, ?_, ?_, ?_, ⟨s4, hex4⟩, computeForce_sampleAt s3 4 hset3.2.2.2.1, rfl, ?_, ?_⟩
  · simp only [run, hex1, hex2, hex3]
  · rw [hP3]
    simp [sampleCurle2, sampleCurle, estimate]
  · rw [hQ3]
    simp [sampleCurle2, sampleCurle, estimate]
  · rw [hfreq3]
    norm_num [sampleWorldAt]
  · rw [hP3, hQ3]
    simp [sampleCurle2, sampleCurle, estimate, sampleWorldAt, Vec.sub_def, Vec.div_def]
    norm_num

/-! ## Calls of the spectral analysis -/

/-- The files after `writeFft()` are those of the calls listed by `fftCalls`,
stored in turn. -/
theorem writeFft_fftCalls (E : Lib K) (s : Curle K) (w : World K) :
    (writeFft E s w).fftFiles = (fftCalls s w).foldl (fftStore E s.name) s.fftFiles := by
  unfold writeFft fftCalls
  split
  · simp only [List.foldl_map]
    rfl
  · rfl

/-- C20 as amended: at every accepted step of `execute()` on the master,
`writeFft()` calls `obs.fft(tau)` once for every observer, in order and with
`tau = probeFreq * deltaT`, whatever the number of samples of the observer
(also when it is below `fftFreq`); the file of an observer is written when the
returned spectrum has at least one bin. -/
theorem writeFft_calls_every_observer (E : Lib K) (s : Curle K) (w : World K) (F : Vec K)
    (hact : s.active = true) (hN : s.probeFreq ≠ 0) (hd : s.probeFreq ∣ s.probeI + 1)
    (ht : s.timeStart ≤ w.time ∧ w.time ≤ s.timeEnd) (hF : computeForce s w = .ok F)
    (hm : (w.master || !w.parRun) = true) :
    ∃ s5 : Curle K, execute E s w = .ok (writeFft E s5 w, .propagated) ∧
      List.Forall₂ (Extends 1) s.observers s5.observers ∧
      fftCalls s5 w = s5.observers.map (fun obs => (obs, (s.probeFreq : K) * w.deltaT)) ∧
      (writeFft E s5 w).fftFiles = (fftCalls s5 w).foldl (fftStore E s.name) s.fftFiles := by
  obtain ⟨f, _, hex⟩ := execute_propagated_master E s w F hact hN hd ht hF hm
  refine ⟨_, hex, ?_, ?_, ?_⟩
  · show List.Forall₂ (Extends 1) s.observers
      (correctMaster E { makeFile s w with probeI := 0 } w F).observers
    have h := correctMaster_extends E { makeFile s w with probeI := 0 } w F
    rw [makeFile_eq] at h
    rw [makeFile_eq]
    exact h
  · simp only [fftCalls, hm, if_true]
    rw [makeFile_eq]
    rfl
  · rw [writeFft_fftCalls]
    rw [makeFile_eq]
    rfl

/-- Witness of C20 as amended: the first call on the sample monitor. -/
theorem writeFft_calls_every_observer_witness :
    ∃ s5 : Curle ℚ, execute sampleLib sampleCurle sampleWorld =
        .ok (writeFft sampleLib s5 sampleWorld, .propagated) ∧
      List.Forall₂ (Extends 1) sampleCurle.observers s5.observers ∧
      fftCalls s5 sampleWorld =
        s5.observers.map (fun obs => (obs, (sampleCurle.probeFreq : ℚ) * sampleWorld.deltaT)) ∧
      (writeFft sampleLib s5 sampleWorld).fftFiles =
        (fftCalls s5 sampleWorld).foldl (fftStore sampleLib sampleCurle.name)
          sampleCurle.fftFiles :=
  writeFft_calls_every_observer sampleLib sampleCurle sampleWorld ⟨-2, 0, 0⟩ rfl (by decide)
    (by decide) (by norm_num [sampleCurle, sampleWorld]) (computeForce_sample _ rfl) rfl

/-- C20 as stated fails: at the first accepted step of the sample monitor, whose
observer `obs` has the window length 4, the observer holds one sample and
`writeFft()` calls its spectral analysis all the same; with a library whose
spectrum has one bin the file of the observer is written. -/
theorem fft_called_below_window_counterexample :
    ∃ s5 : Curle ℚ, execute oneBinLib sampleCurle sampleWorld =
        .ok (writeFft oneBinLib s5 sampleWorld, .propagated) ∧
      (∀ obs ∈ s5.observers, obs.p.length = 1 ∧ obs.fftFreq = 4) ∧
      (fftCalls s5 sampleWorld).map (fun c => (c.1.name, c.1.p.length, c.1.fftFreq)) =
        [("obs", 1, 4)] ∧
      (writeFft oneBinLib s5 sampleWorld).fftFiles = [("fft-curle-obs.dat", [(0, 0, 0)])] := by
  obtain ⟨f, _, hex⟩ := execute_propagated_master oneBinLib sampleCurle sampleWorld ⟨-2, 0, 0⟩
    rfl (by decide) (by decide) (by norm_num [sampleCurle, sampleWorld])
    (computeForce_sample _ rfl) rfl
  refine ⟨_, hex, ?_, ?_, ?_⟩
  · intro obs hobs
    simp only [correctMaster] at hobs
    rw [makeFile_eq] at hobs
    simp only [sampleCurle, List.map_cons, List.map_nil, List.mem_singleton] at hobs
    subst hobs
    exact ⟨rfl, rfl⟩
  · simp only [fftCalls, correctMaster]
    rw [makeFile_eq]
    simp [sampleCurle, sampleWorld, SoundObserver.new, SoundObserver.setApressure,
      SoundObserver.atime]
  · rw [writeFft_fftCalls]
    simp only [fftCalls, correctMaster]
    rw [makeFile_eq]
    simp [sampleCurle, sampleWorld, SoundObserver.new, SoundObserver.setApressure,
      SoundObserver.atime, fftStore, oneBinLib]

/-! ## Spectrum of an observer -/

theorem mem_zip_map_self {α β : Type} (g : α → β) (l : List α) (y : α) (z : β)
    (h : (y, z) ∈ List.zip l (l.map g)) : z = g y := by
  induction l with
  | nil => simp at h
  | cons a l ih =>
    simp only [List.map_cons, List.zip_cons_cons, List.mem_cons, Prod.mk.injEq] at h
    rcases h with ⟨h1, h2⟩ | h
    · rw [h1, h2]
    · exact ih h

/-- C17: for every observer and every bin of the spectrum that the spectral
analysis of the observer returns to `writeFft()`, the sound-pressure level of
the bin is `20 log10(amplitude / pRef)` with the amplitude of the same bin and
the reference pressure of the observer, and the three returned sequences,
frequency, amplitude and level, have one length. -/
theorem spectrum_level (pi : K) (sqrt : K → K) (S : SpectralLib K) (obs : SoundObserver K)
    (tau : K) :
    ∃ frequency amplitude level : List K,
      obs.spectrum S tau = [frequency, amplitude, level] ∧
      frequency.length = amplitude.length ∧ level.length = amplitude.length ∧
      (∀ k : Nat, level[k]? = amplitude[k]?.map (fun a => 20 * S.log10 (a / obs.pref))) ∧
      (∀ bin ∈ (spectralLib pi sqrt S).fft obs tau,
        bin.2.2 = 20 * S.log10 (bin.2.1 / obs.pref)) ∧
      ((spectralLib pi sqrt S).fft obs tau).length = amplitude.length := by
  refine ⟨_, _, _, rfl, by simp, by simp, ?_, ?_, ?_⟩
  · intro k
    simp
  · intro bin hbin
    simp only [spectralLib, SoundObserver.spectrum, bins] at hbin
    obtain ⟨f, a, l⟩ := bin
    exact mem_zip_map_self _ _ a l (List.of_mem_zip hbin).2
  · simp [spectralLib, SoundObserver.spectrum, bins]

end Foam
